import Mathlib

/-!
Shallow embedding of `relay-transforms/src/validations/validate_selection_conflict.rs`,
the selection-conflict validation pass: data model (schema types, selections,
flattened fields, diagnostics), the mutually recursive validator with its two
memoization tables threaded as explicit state, and a cache-free reference
variant used to compare diagnostics with and without caching.

Machine pointers (`PointerAddress`) are modelled by an explicit `id` on linked
field nodes; interned strings (`StringKey`), field ids and locations are `Nat`.
Rust's partiality (fragment-cycle divergence, `unwrap` on a missing fragment)
is made explicit with a fuel parameter and a `stuck` result.
-/

namespace SelectionConflict

/-- Schema `Type` handle: concrete object types versus abstract
(interface/union) and leaf type kinds. -/
inductive SchemaType where
  | object (id : Nat)
  | interface (id : Nat)
  | union (id : Nat)
  | scalar (id : Nat)
  | enum (id : Nat)
  | inputObject (id : Nat)
  deriving DecidableEq, Repr

/-- Schema `TypeReference`: a named type possibly wrapped in list/non-null. -/
inductive TypeReference where
  | named : SchemaType → TypeReference
  | list : TypeReference → TypeReference
  | nonNull : TypeReference → TypeReference
  deriving DecidableEq, Repr

/-- `schema::definitions::Field`: what the conflict validator reads off a field
definition — its name, its declaring (parent) type and its result type. -/
structure FieldDefinition where
  name : Nat
  parent_type : Option SchemaType
  type_ : TypeReference
  deriving DecidableEq, Repr

/-- The Schema Provider interface the pass consumes: field-definition lookup by
field id, and type-string rendering for diagnostics. -/
structure Schema where
  field : Nat → FieldDefinition
  get_type_string : TypeReference → String

/-- `graphql_ir::ScalarField` restricted to what the pass reads: alias_,
field-definition reference and its source location. -/
structure ScalarField where
  alias_ : Option Nat
  definition : Nat
  location : Nat
  deriving DecidableEq, Repr

/-- `graphql_ir::Selection`: the five selection kinds. Linked fields carry an
`id` standing for the node's address (`PointerAddress`), used as cache key. -/
inductive Selection where
  | linkedField (alias_ : Option Nat) (definition : Nat) (location : Nat)
      (id : Nat) (selections : List Selection)
  | scalarField (f : ScalarField)
  | condition (selections : List Selection)
  | inlineFragment (selections : List Selection)
  | fragmentSpread (fragment : Nat)
  deriving Repr

/-- `graphql_ir::LinkedField` restricted to what the pass reads. -/
structure LinkedField where
  alias_ : Option Nat
  definition : Nat
  location : Nat
  id : Nat
  selections : List Selection
  deriving Repr

/-- The `Field` enum of the pass: a flattened field is a reference to a linked
or a scalar field node (the `ScalarFeild` spelling is the source's). -/
inductive Field where
  | linkedField : LinkedField → Field
  | scalarFeild : ScalarField → Field
  deriving Repr

/-- `Fields`: the flattened field list accumulated per selection scope. -/
abbrev Fields := List Field

/-- `FragmentDefinition`: name and selection list. -/
structure FragmentDefinition where
  name : Nat
  selections : List Selection
  deriving Repr

/-- `OperationDefinition`: a top-level selection list. -/
structure OperationDefinition where
  selections : List Selection
  deriving Repr

/-- The `Program`: schema, operations, and fragments addressable by name. -/
structure Program where
  schema : Schema
  operations : List OperationDefinition
  fragments : List (Nat × FragmentDefinition)

/-- The two diagnostic kinds of `ValidationMessage` used by the pass. -/
inductive ValidationMessage where
  | ambiguousFieldAlias (response_key l_name r_name : Nat)
  | ambiguousFieldType (response_key l_name r_name : Nat)
      (l_type_string r_type_string : String)
  deriving DecidableEq, Repr

/-- A `Diagnostic`: primary message and location plus secondary annotations. -/
structure Diagnostic where
  message : ValidationMessage
  location : Nat
  annotations : List (String × Nat)
  deriving DecidableEq, Repr

/-- `Diagnostic::error`. -/
def Diagnostic.error (m : ValidationMessage) (loc : Nat) : Diagnostic :=
  ⟨m, loc, []⟩

/-- `Diagnostic::annotate`. -/
def Diagnostic.annotate (d : Diagnostic) (label : String) (loc : Nat) : Diagnostic :=
  { d with annotations := d.annotations ++ [(label, loc)] }

/-- The two memoization tables (`DashMap`s in the source), as association
lists: fragment name → flattened list, linked-field node id → flattened list.
Insertion conses; lookup takes the most recent binding, matching overwrite
semantics. -/
structure Caches where
  fragmentCache : List (Nat × Fields)
  fieldsCache : List (Nat × Fields)

/-- Result of a fallible validation step: success, diagnostics, or `stuck`
(out of fuel — the Rust code diverges on fragment cycles — or a failed
`unwrap` of an unknown fragment, a precondition violation). -/
inductive VRes (α : Type) where
  | ok : α → VRes α
  | err : List Diagnostic → VRes α
  | stuck : VRes α
  deriving Repr

/-- `Field::get_response_key`: alias_ if present, else the schema name of the
referenced field definition. -/
def Field.get_response_key (schema : Schema) : Field → Nat
  | .linkedField f => f.alias_.getD (schema.field f.definition).name
  | .scalarFeild f => f.alias_.getD (schema.field f.definition).name

/-- `Field::get_field_definition`. -/
def Field.get_field_definition (schema : Schema) : Field → FieldDefinition
  | .linkedField f => schema.field f.definition
  | .scalarFeild f => schema.field f.definition

/-- `Field::loc`. -/
def Field.loc : Field → Nat
  | .linkedField f => f.location
  | .scalarFeild f => f.location

mutual
/-- Deep value equality of selection nodes (the derived `PartialEq` of
`graphql_ir`), ignoring the node-address `id`, which models pointer identity
rather than node value. -/
def selectionValEq : Selection → Selection → Bool
  | .linkedField a1 d1 l1 _ s1, .linkedField a2 d2 l2 _ s2 =>
      a1 == a2 && d1 == d2 && l1 == l2 && selectionsValEq s1 s2
  | .scalarField f1, .scalarField f2 => f1 == f2
  | .condition s1, .condition s2 => selectionsValEq s1 s2
  | .inlineFragment s1, .inlineFragment s2 => selectionsValEq s1 s2
  | .fragmentSpread n1, .fragmentSpread n2 => n1 == n2
  | _, _ => false

/-- Pointwise deep value equality of selection lists. -/
def selectionsValEq : List Selection → List Selection → Bool
  | [], [] => true
  | s :: ss, t :: ts => selectionValEq s t && selectionsValEq ss ts
  | _, _ => false
end

/-- Deep value equality of `Field` (the derived `PartialEq` on the `Field`
enum, used by the exact-match fast path). -/
def Field.valEq : Field → Field → Bool
  | .linkedField f, .linkedField g =>
      f.alias_ == g.alias_ && f.definition == g.definition && f.location == g.location
        && selectionsValEq f.selections g.selections
  | .scalarFeild f, .scalarFeild g => f == g
  | _, _ => false

/-- Whether a schema type handle is a concrete object type. -/
def SchemaType.isObject : SchemaType → Bool
  | .object _ => true
  | _ => false

/-- The mutual-exclusivity test of `validate_and_insert_field_selection`:
the inherited flag, or differing declaring types that are both concrete
object types. -/
def is_parent_fields_mutually_exclusive (parentExcl : Bool)
    (lDef rDef : FieldDefinition) : Bool :=
  parentExcl ||
    (lDef.parent_type != rDef.parent_type &&
      (match lDef.parent_type, rDef.parent_type with
        | some (.object _), some (.object _) => true
        | _, _ => false))

/-- Result of the scan loop inside `validate_and_insert_field_selection`:
the loop ran to completion with the accumulated local error list, or a
`return` fired inside the loop body, or the computation got stuck. -/
inductive ScanRes where
  | scanDone : List Diagnostic → ScanRes
  | scanReturn : VRes Unit → ScanRes
  | scanStuck : ScanRes

mutual

/-- `validate_selections`: flatten a selection list into a fresh accumulator,
collecting (not short-circuiting) the error lists of the individual
selections. -/
def validateSelections : Nat → Program → Caches → List Selection →
    Caches × VRes Fields
  | 0, _, σ, _ => (σ, .stuck)
  | n + 1, p, σ, sels => validateSelectionsGo n p σ [] [] sels

/-- The `validate_map` loop of `validate_selections`: each selection is
validated against the shared accumulator; errors are concatenated and do not
stop the iteration. -/
def validateSelectionsGo : Nat → Program → Caches → Fields → List Diagnostic →
    List Selection → Caches × VRes Fields
  | 0, _, σ, _, _, _ => (σ, .stuck)
  | _ + 1, _, σ, fields, errs, [] =>
      (σ, if errs.isEmpty then .ok fields else .err errs)
  | n + 1, p, σ, fields, errs, s :: rest =>
      match validateSelection n p σ fields s with
      | (σ', fields', .ok _) => validateSelectionsGo n p σ' fields' errs rest
      | (σ', fields', .err es) =>
          validateSelectionsGo n p σ' fields' (errs ++ es) rest
      | (σ', _, .stuck) => (σ', .stuck)

/-- `validate_selection`: dispatch on the five selection kinds. Linked and
scalar fields are inserted into the accumulator; condition and inline-fragment
bodies are flattened independently and merged in; fragment spreads resolve the
named fragment (through the cache) and merge its list in. A missing fragment
is the source's `unwrap` — modelled as `stuck`. -/
def validateSelection : Nat → Program → Caches → Fields → Selection →
    Caches × Fields × VRes Unit
  | 0, _, σ, fields, _ => (σ, fields, .stuck)
  | n + 1, p, σ, fields, .linkedField a d loc i sels =>
      let lf : LinkedField := ⟨a, d, loc, i, sels⟩
      match validateLinkedFieldSelections n p σ lf with
      | (σ', .ok _) =>
          validateAndInsertFieldSelection n p σ' fields (.linkedField lf) false
      | (σ', .err es) => (σ', fields, .err es)
      | (σ', .stuck) => (σ', fields, .stuck)
  | n + 1, p, σ, fields, .scalarField sf =>
      validateAndInsertFieldSelection n p σ fields (.scalarFeild sf) false
  | n + 1, p, σ, fields, .condition sels =>
      match validateSelections n p σ sels with
      | (σ', .ok newFields) => validateAndMergeFields n p σ' fields newFields false
      | (σ', .err es) => (σ', fields, .err es)
      | (σ', .stuck) => (σ', fields, .stuck)
  | n + 1, p, σ, fields, .inlineFragment sels =>
      match validateSelections n p σ sels with
      | (σ', .ok newFields) => validateAndMergeFields n p σ' fields newFields false
      | (σ', .err es) => (σ', fields, .err es)
      | (σ', .stuck) => (σ', fields, .stuck)
  | n + 1, p, σ, fields, .fragmentSpread name =>
      match p.fragments.lookup name with
      | none => (σ, fields, .stuck)
      | some frag =>
          match validateAndCollectFragment n p σ frag with
          | (σ', .ok newFields) =>
              validateAndMergeFields n p σ' fields newFields false
          | (σ', .err es) => (σ', fields, .err es)
          | (σ', .stuck) => (σ', fields, .stuck)

/-- `validate_and_collect_fragment`: memoized fragment resolution keyed by
fragment name. On a hit the shared cached list is returned unchanged; on a
miss the fragment's own selections are flattened and, on success only, stored
before being returned. -/
def validateAndCollectFragment : Nat → Program → Caches → FragmentDefinition →
    Caches × VRes Fields
  | 0, _, σ, _ => (σ, .stuck)
  | n + 1, p, σ, frag =>
      match σ.fragmentCache.lookup frag.name with
      | some cached => (σ, .ok cached)
      | none =>
          match validateSelections n p σ frag.selections with
          | (σ', .ok fields) =>
              ({ σ' with fragmentCache := (frag.name, fields) :: σ'.fragmentCache },
                .ok fields)
          | (σ', .err es) => (σ', .err es)
          | (σ', .stuck) => (σ', .stuck)

/-- `validate_linked_field_selections`: memoized flattening of a linked
field's sub-selections, keyed by the node's address (`PointerAddress`). -/
def validateLinkedFieldSelections : Nat → Program → Caches → LinkedField →
    Caches × VRes Fields
  | 0, _, σ, _ => (σ, .stuck)
  | n + 1, p, σ, field =>
      match σ.fieldsCache.lookup field.id with
      | some cached => (σ, .ok cached)
      | none =>
          match validateSelections n p σ field.selections with
          | (σ', .ok fields) =>
              ({ σ' with fieldsCache := (field.id, fields) :: σ'.fieldsCache },
                .ok fields)
          | (σ', .err es) => (σ', .err es)
          | (σ', .stuck) => (σ', .stuck)

/-- `validate_and_merge_fields`: insert every field of `right` into `left`,
propagating the mutual-exclusivity flag, concatenating errors across fields. -/
def validateAndMergeFields : Nat → Program → Caches → Fields → Fields → Bool →
    Caches × Fields × VRes Unit
  | 0, _, σ, left, _, _ => (σ, left, .stuck)
  | n + 1, p, σ, left, right, excl => validateAndMergeFieldsGo n p σ left [] right excl

/-- The `validate_map` loop of `validate_and_merge_fields`: an erroring insert
does not stop the iteration, and later successful inserts still extend
`left`. -/
def validateAndMergeFieldsGo : Nat → Program → Caches → Fields →
    List Diagnostic → Fields → Bool → Caches × Fields × VRes Unit
  | 0, _, σ, left, _, _, _ => (σ, left, .stuck)
  | _ + 1, _, σ, left, errs, [], _ =>
      (σ, left, if errs.isEmpty then .ok () else .err errs)
  | n + 1, p, σ, left, errs, f :: rest, excl =>
      match validateAndInsertFieldSelection n p σ left f excl with
      | (σ', left', .ok _) => validateAndMergeFieldsGo n p σ' left' errs rest excl
      | (σ', left', .err es) =>
          validateAndMergeFieldsGo n p σ' left' (errs ++ es) rest excl
      | (σ', left', .stuck) => (σ', left', .stuck)

/-- `validate_and_insert_field_selection`: scan the existing same-response-key
entries; if the scan completes with an empty local error list the candidate is
appended, otherwise the errors are returned and the accumulator is left
unchanged; an early `return` inside the loop also leaves it unchanged. -/
def validateAndInsertFieldSelection : Nat → Program → Caches → Fields → Field →
    Bool → Caches × Fields × VRes Unit
  | 0, _, σ, fields, _, _ => (σ, fields, .stuck)
  | n + 1, p, σ, fields, field, parentExcl =>
      let key := field.get_response_key p.schema
      match insertScan n p σ fields field key parentExcl [] with
      | (σ', .scanDone errs) =>
          if errs.isEmpty then (σ', fields ++ [field], .ok ())
          else (σ', fields, .err errs)
      | (σ', .scanReturn r) => (σ', fields, r)
      | (σ', .scanStuck) => (σ', fields, .stuck)

/-- The `for existing_field in fields.iter_mut().filter(..)` loop of
`validate_and_insert_field_selection`: entries whose response key differs are
skipped; a value-identical entry returns early (success iff no error was
collected so far in this call); otherwise the comparison for the matching
entry appends to the local error list and the scan continues. In the
linked-vs-linked arm the two child lists are resolved (`?` propagates their
failures as an early return) and merged into a private copy
(`Arc::make_mut`) of the cached left list, which is then dropped — only the
nested merge's errors are kept. -/
def insertScan : Nat → Program → Caches → Fields → Field → Nat → Bool →
    List Diagnostic → Caches × ScanRes
  | 0, _, σ, _, _, _, _, _ => (σ, .scanStuck)
  | _ + 1, _, σ, [], _, _, _, errs => (σ, .scanDone errs)
  | n + 1, p, σ, existing :: rest, field, key, parentExcl, errs =>
      if key != existing.get_response_key p.schema then
        insertScan n p σ rest field key parentExcl errs
      else if Field.valEq field existing then
        (σ, .scanReturn (if errs.isEmpty then .ok () else .err errs))
      else
        let l_definition := existing.get_field_definition p.schema
        let r_definition := field.get_field_definition p.schema
        let fields_mutually_exclusive :=
          is_parent_fields_mutually_exclusive parentExcl l_definition r_definition
        match existing, field with
        | .linkedField l, .linkedField r =>
            let errs1 :=
              if !fields_mutually_exclusive && l_definition.name != r_definition.name then
                errs ++ [(Diagnostic.error
                    (.ambiguousFieldAlias key l_definition.name r_definition.name)
                    l.location).annotate "the other field" r.location]
              else errs
            match validateLinkedFieldSelections n p σ l with
            | (σ1, .err es) => (σ1, .scanReturn (.err es))
            | (σ1, .stuck) => (σ1, .scanStuck)
            | (σ1, .ok l_fields) =>
                match validateLinkedFieldSelections n p σ1 r with
                | (σ2, .err es) => (σ2, .scanReturn (.err es))
                | (σ2, .stuck) => (σ2, .scanStuck)
                | (σ2, .ok r_fields) =>
                    match validateAndMergeFields n p σ2 l_fields r_fields
                        fields_mutually_exclusive with
                    | (σ3, _, .ok _) =>
                        insertScan n p σ3 rest (.linkedField r) key parentExcl errs1
                    | (σ3, _, .err es) =>
                        insertScan n p σ3 rest (.linkedField r) key parentExcl
                          (errs1 ++ es)
                    | (σ3, _, .stuck) => (σ3, .scanStuck)
        | .scalarFeild l, .scalarFeild r =>
            let errs1 :=
              if !fields_mutually_exclusive then
                if l_definition.name != r_definition.name then
                  errs ++ [(Diagnostic.error
                      (.ambiguousFieldAlias key l_definition.name r_definition.name)
                      l.location).annotate "the other field" r.location]
                else errs
              else if l_definition.type_ != r_definition.type_ then
                errs ++ [(Diagnostic.error
                    (.ambiguousFieldType key l_definition.name r_definition.name
                      (p.schema.get_type_string l_definition.type_)
                      (p.schema.get_type_string r_definition.type_))
                    l.location).annotate "the other field" (Field.scalarFeild r).loc]
              else errs
            insertScan n p σ rest (.scalarFeild r) key parentExcl errs1
        | exf, rf =>
            let errs1 :=
              errs ++ [(Diagnostic.error
                  (.ambiguousFieldType key l_definition.name r_definition.name
                    (p.schema.get_type_string l_definition.type_)
                    (p.schema.get_type_string r_definition.type_))
                  exf.loc).annotate "the other field" rf.loc]
            insertScan n p σ rest rf key parentExcl errs1

end

/-- `validate_operation`: validate an operation's selections, discarding the
flattened list. -/
def validateOperation (fuel : Nat) (p : Program) (σ : Caches)
    (op : OperationDefinition) : Caches × VRes Unit :=
  match validateSelections fuel p σ op.selections with
  | (σ', .ok _) => (σ', .ok ())
  | (σ', .err es) => (σ', .err es)
  | (σ', .stuck) => (σ', .stuck)

/-- The `par_try_map` over operations of `validate_program`: every operation
is validated and all error lists are concatenated (`none` = stuck). -/
def runOperations (fuel : Nat) (p : Program) :
    Caches → List OperationDefinition → List Diagnostic →
    Caches × Option (List Diagnostic)
  | σ, [], errs => (σ, some errs)
  | σ, op :: rest, errs =>
      match validateOperation fuel p σ op with
      | (σ', .ok _) => runOperations fuel p σ' rest errs
      | (σ', .err es) => runOperations fuel p σ' rest (errs ++ es)
      | (σ', .stuck) => (σ', none)

/-- The `par_try_map` over fragments of `validate_program`: every named
fragment is resolved — reachable from an operation or not — and all error
lists are concatenated. -/
def runFragments (fuel : Nat) (p : Program) :
    Caches → List (Nat × FragmentDefinition) → List Diagnostic →
    Caches × Option (List Diagnostic)
  | σ, [], errs => (σ, some errs)
  | σ, (_, frag) :: rest, errs =>
      match validateAndCollectFragment fuel p σ frag with
      | (σ', .ok _) => runFragments fuel p σ' rest errs
      | (σ', .err es) => runFragments fuel p σ' rest (errs ++ es)
      | (σ', .stuck) => (σ', none)

/-- `validate_program`: the `validate!` of the operation task results and the
fragment task results — all diagnostics concatenated, success iff none. -/
def validateProgram (fuel : Nat) (p : Program) (σ : Caches) :
    Caches × VRes Unit :=
  match runOperations fuel p σ p.operations [] with
  | (σ1, none) => (σ1, .stuck)
  | (σ1, some errs1) =>
      match runFragments fuel p σ1 p.fragments [] with
      | (σ2, none) => (σ2, .stuck)
      | (σ2, some errs2) =>
          let errs := errs1 ++ errs2
          (σ2, if errs.isEmpty then .ok () else .err errs)

/-- `validate_selection_conflict`: entry point, starting from empty caches. -/
def validate_selection_conflict (fuel : Nat) (p : Program) : Caches × VRes Unit :=
  validateProgram fuel p ⟨[], []⟩

/-! ### Cache-free reference flattener

Modelled from the spec: "caching must not alter which diagnostics are
produced versus computing without caching". The `*NC` family is the same
flattener with the two memoization tables removed — every fragment spread
re-flattens the fragment's own selections and every linked field re-flattens
its sub-selections. It is the spec-side comparator for the caching claims,
not a transcription of separate source code. -/

mutual

/-- Cache-free `validate_selections`. -/
def flattenSelectionsNC : Nat → Program → List Selection → VRes Fields
  | 0, _, _ => .stuck
  | n + 1, p, sels => flattenSelectionsGoNC n p [] [] sels

/-- Cache-free `validate_selections` loop. -/
def flattenSelectionsGoNC : Nat → Program → Fields → List Diagnostic →
    List Selection → VRes Fields
  | 0, _, _, _, _ => .stuck
  | _ + 1, _, fields, errs, [] =>
      if errs.isEmpty then .ok fields else .err errs
  | n + 1, p, fields, errs, s :: rest =>
      match flattenSelectionNC n p fields s with
      | (fields', .ok _) => flattenSelectionsGoNC n p fields' errs rest
      | (fields', .err es) => flattenSelectionsGoNC n p fields' (errs ++ es) rest
      | (_, .stuck) => .stuck

/-- Cache-free `validate_selection`. -/
def flattenSelectionNC : Nat → Program → Fields → Selection →
    Fields × VRes Unit
  | 0, _, fields, _ => (fields, .stuck)
  | n + 1, p, fields, .linkedField a d loc i sels =>
      let lf : LinkedField := ⟨a, d, loc, i, sels⟩
      match flattenLinkedFieldNC n p lf with
      | .ok _ => insertFieldNC n p fields (.linkedField lf) false
      | .err es => (fields, .err es)
      | .stuck => (fields, .stuck)
  | n + 1, p, fields, .scalarField sf =>
      insertFieldNC n p fields (.scalarFeild sf) false
  | n + 1, p, fields, .condition sels =>
      match flattenSelectionsNC n p sels with
      | .ok newFields => mergeFieldsNC n p fields newFields false
      | .err es => (fields, .err es)
      | .stuck => (fields, .stuck)
  | n + 1, p, fields, .inlineFragment sels =>
      match flattenSelectionsNC n p sels with
      | .ok newFields => mergeFieldsNC n p fields newFields false
      | .err es => (fields, .err es)
      | .stuck => (fields, .stuck)
  | n + 1, p, fields, .fragmentSpread name =>
      match p.fragments.lookup name with
      | none => (fields, .stuck)
      | some frag =>
          match collectFragmentNC n p frag with
          | .ok newFields => mergeFieldsNC n p fields newFields false
          | .err es => (fields, .err es)
          | .stuck => (fields, .stuck)

/-- Cache-free `validate_and_collect_fragment`: always re-flattens. -/
def collectFragmentNC : Nat → Program → FragmentDefinition → VRes Fields
  | 0, _, _ => .stuck
  | n + 1, p, frag => flattenSelectionsNC n p frag.selections

/-- Cache-free `validate_linked_field_selections`: always re-flattens. -/
def flattenLinkedFieldNC : Nat → Program → LinkedField → VRes Fields
  | 0, _, _ => .stuck
  | n + 1, p, field => flattenSelectionsNC n p field.selections

/-- Cache-free `validate_and_merge_fields`. -/
def mergeFieldsNC : Nat → Program → Fields → Fields → Bool →
    Fields × VRes Unit
  | 0, _, left, _, _ => (left, .stuck)
  | n + 1, p, left, right, excl => mergeFieldsGoNC n p left [] right excl

/-- Cache-free `validate_and_merge_fields` loop. -/
def mergeFieldsGoNC : Nat → Program → Fields → List Diagnostic → Fields →
    Bool → Fields × VRes Unit
  | 0, _, left, _, _, _ => (left, .stuck)
  | _ + 1, _, left, errs, [], _ =>
      (left, if errs.isEmpty then .ok () else .err errs)
  | n + 1, p, left, errs, f :: rest, excl =>
      match insertFieldNC n p left f excl with
      | (left', .ok _) => mergeFieldsGoNC n p left' errs rest excl
      | (left', .err es) => mergeFieldsGoNC n p left' (errs ++ es) rest excl
      | (left', .stuck) => (left', .stuck)

/-- Cache-free `validate_and_insert_field_selection`. -/
def insertFieldNC : Nat → Program → Fields → Field → Bool →
    Fields × VRes Unit
  | 0, _, fields, _, _ => (fields, .stuck)
  | n + 1, p, fields, field, parentExcl =>
      let key := field.get_response_key p.schema
      match insertScanNC n p fields field key parentExcl [] with
      | .scanDone errs =>
          if errs.isEmpty then (fields ++ [field], .ok ())
          else (fields, .err errs)
      | .scanReturn r => (fields, r)
      | .scanStuck => (fields, .stuck)

/-- Cache-free scan loop of `validate_and_insert_field_selection`. -/
def insertScanNC : Nat → Program → Fields → Field → Nat → Bool →
    List Diagnostic → ScanRes
  | 0, _, _, _, _, _, _ => .scanStuck
  | _ + 1, _, [], _, _, _, errs => .scanDone errs
  | n + 1, p, existing :: rest, field, key, parentExcl, errs =>
      if key != existing.get_response_key p.schema then
        insertScanNC n p rest field key parentExcl errs
      else if Field.valEq field existing then
        .scanReturn (if errs.isEmpty then .ok () else .err errs)
      else
        let l_definition := existing.get_field_definition p.schema
        let r_definition := field.get_field_definition p.schema
        let fields_mutually_exclusive :=
          is_parent_fields_mutually_exclusive parentExcl l_definition r_definition
        match existing, field with
        | .linkedField l, .linkedField r =>
            let errs1 :=
              if !fields_mutually_exclusive && l_definition.name != r_definition.name then
                errs ++ [(Diagnostic.error
                    (.ambiguousFieldAlias key l_definition.name r_definition.name)
                    l.location).annotate "the other field" r.location]
              else errs
            match flattenLinkedFieldNC n p l with
            | .err es => .scanReturn (.err es)
            | .stuck => .scanStuck
            | .ok l_fields =>
                match flattenLinkedFieldNC n p r with
                | .err es => .scanReturn (.err es)
                | .stuck => .scanStuck
                | .ok r_fields =>
                    match mergeFieldsNC n p l_fields r_fields
                        fields_mutually_exclusive with
                    | (_, .ok _) =>
                        insertScanNC n p rest (.linkedField r) key parentExcl errs1
                    | (_, .err es) =>
                        insertScanNC n p rest (.linkedField r) key parentExcl
                          (errs1 ++ es)
                    | (_, .stuck) => .scanStuck
        | .scalarFeild l, .scalarFeild r =>
            let errs1 :=
              if !fields_mutually_exclusive then
                if l_definition.name != r_definition.name then
                  errs ++ [(Diagnostic.error
                      (.ambiguousFieldAlias key l_definition.name r_definition.name)
                      l.location).annotate "the other field" r.location]
                else errs
              else if l_definition.type_ != r_definition.type_ then
                errs ++ [(Diagnostic.error
                    (.ambiguousFieldType key l_definition.name r_definition.name
                      (p.schema.get_type_string l_definition.type_)
                      (p.schema.get_type_string r_definition.type_))
                    l.location).annotate "the other field" (Field.scalarFeild r).loc]
              else errs
            insertScanNC n p rest (.scalarFeild r) key parentExcl errs1
        | exf, rf =>
            let errs1 :=
              errs ++ [(Diagnostic.error
                  (.ambiguousFieldType key l_definition.name r_definition.name
                    (p.schema.get_type_string l_definition.type_)
                    (p.schema.get_type_string r_definition.type_))
                  exf.loc).annotate "the other field" rf.loc]
            insertScanNC n p rest rf key parentExcl errs1

end

/-! ### A concrete schema and programs for witnesses and counterexamples -/

/-- A small concrete schema: field ids 0–6 with names, declaring types and
result types chosen to exercise each comparison rule. -/
def testSchema : Schema where
  field := fun i =>
    match i with
    | 0 => ⟨10, some (.object 0), .named (.scalar 0)⟩
    | 1 => ⟨11, some (.object 0), .named (.scalar 0)⟩
    | 2 => ⟨12, some (.object 1), .named (.scalar 0)⟩
    | 3 => ⟨13, some (.object 1), .named (.scalar 1)⟩
    | 4 => ⟨14, some (.interface 0), .named (.scalar 0)⟩
    | 5 => ⟨15, some (.object 0), .named (.object 1)⟩
    | 6 => ⟨15, some (.object 0), .named (.object 1)⟩
    | _ => ⟨99, none, .named (.scalar 9)⟩
  get_type_string := fun _ => "T"

/-- A program with no operations and no fragments over `testSchema`. -/
def P0 : Program := ⟨testSchema, [], []⟩

/-- The empty cache state. -/
def σ0 : Caches := ⟨[], []⟩

/-- A fragment selecting a single scalar field (the spec's `id` fragment). -/
def idFragment : FragmentDefinition := ⟨0, [.scalarField ⟨some 5, 0, 100⟩]⟩

/-- A program whose only fragment is `idFragment`. -/
def idProgram : Program := ⟨testSchema, [], [(0, idFragment)]⟩

/-- A fragment whose body has a genuine conflict (same key, two names). -/
def conflictFragment : FragmentDefinition :=
  ⟨1, [.scalarField ⟨some 5, 0, 100⟩, .scalarField ⟨some 5, 1, 101⟩]⟩

/-- A program whose only fragment is `conflictFragment`. -/
def conflictProgram : Program := ⟨testSchema, [], [(1, conflictFragment)]⟩

/-! ### Well-formedness and cache coherence

The `PointerAddress` key of `fields_cache` is sound in Rust because an
address determines the node it points to. In the embedding that invariant is
made explicit: a node table `Env` assigns to each linked-field id its
selection list, and well-formed selections only carry ids that the table
maps to their own selections. Cache coherence states that every cached list
is the cache-free flattening of the fragment/node it is keyed by. -/

/-- A node table: the selection list owned by each linked-field node id. -/
def Env := Nat → Option (List Selection)

/-- Well-formed selection: every linked-field node inside carries an id the
node table maps to exactly its own selection list. -/
inductive SelWF (env : Env) : Selection → Prop where
  | linkedField {a : Option Nat} {d loc i : Nat} {sels : List Selection} :
      env i = some sels → (∀ s ∈ sels, SelWF env s) →
      SelWF env (.linkedField a d loc i sels)
  | scalarField {f : ScalarField} : SelWF env (.scalarField f)
  | condition {sels : List Selection} :
      (∀ s ∈ sels, SelWF env s) → SelWF env (.condition sels)
  | inlineFragment {sels : List Selection} :
      (∀ s ∈ sels, SelWF env s) → SelWF env (.inlineFragment sels)
  | fragmentSpread {name : Nat} : SelWF env (.fragmentSpread name)

/-- Well-formed flattened field. -/
def FieldWF (env : Env) : Field → Prop
  | .linkedField lf =>
      env lf.id = some lf.selections ∧ ∀ s ∈ lf.selections, SelWF env s
  | .scalarFeild _ => True

/-- Well-formed selection list. -/
def SelsWF (env : Env) (sels : List Selection) : Prop := ∀ s ∈ sels, SelWF env s

/-- Well-formed flattened field list. -/
def FieldsWF (env : Env) (fl : Fields) : Prop := ∀ f ∈ fl, FieldWF env f

/-- Well-formed program: every fragment that can be looked up is keyed by its
own name and has well-formed selections. -/
structure ProgramWF (p : Program) (env : Env) : Prop where
  frags : ∀ name fd, p.fragments.lookup name = some fd →
    fd.name = name ∧ SelsWF env fd.selections
  mem : ∀ pr ∈ p.fragments, p.fragments.lookup pr.2.name = some pr.2
  ops : ∀ op ∈ p.operations, SelsWF env op.selections

/-- Cache coherence: every cached flattened list is the cache-free
flattening of the fragment (resp. of the node-table entry) it is keyed by,
and is itself well-formed. -/
structure Coh (p : Program) (env : Env) (σ : Caches) : Prop where
  frag : ∀ name fl, σ.fragmentCache.lookup name = some fl →
    ∃ fd, p.fragments.lookup name = some fd ∧
      (∃ m, flattenSelectionsNC m p fd.selections = .ok fl) ∧ FieldsWF env fl
  fld : ∀ i fl, σ.fieldsCache.lookup i = some fl →
    ∃ sels, env i = some sels ∧ SelsWF env sels ∧
      (∃ m, flattenSelectionsNC m p sels = .ok fl) ∧ FieldsWF env fl

/-- Append-only evolution of the cache state: the new state's tables extend
the old ones at the front (entries are only ever consed, never removed). -/
def CachesExtends (σ2 σ1 : Caches) : Prop :=
  (∃ d, σ2.fragmentCache = d ++ σ1.fragmentCache) ∧
  (∃ d, σ2.fieldsCache = d ++ σ1.fieldsCache)

/-! ### Reflexivity and discrimination of deep value equality -/

mutual

theorem selectionValEq_refl : ∀ s : Selection, selectionValEq s s = true
  | .linkedField a d l i ss => by simp [selectionValEq, selectionsValEq_refl ss]
  | .scalarField f => by simp [selectionValEq]
  | .condition ss => by simp [selectionValEq, selectionsValEq_refl ss]
  | .inlineFragment ss => by simp [selectionValEq, selectionsValEq_refl ss]
  | .fragmentSpread m => by simp [selectionValEq]

theorem selectionsValEq_refl : ∀ ss : List Selection, selectionsValEq ss ss = true
  | [] => by simp [selectionsValEq]
  | s :: ss => by simp [selectionsValEq, selectionValEq_refl s, selectionsValEq_refl ss]

end

theorem Field.valEq_refl : ∀ f : Field, Field.valEq f f = true
  | .linkedField lf => by simp [Field.valEq, selectionsValEq_refl]
  | .scalarFeild sf => by simp [Field.valEq]

theorem valEq_scalar_linked (f : ScalarField) (g : LinkedField) :
    Field.valEq (.scalarFeild f) (.linkedField g) = false := rfl

theorem valEq_linked_scalar (f : LinkedField) (g : ScalarField) :
    Field.valEq (.linkedField f) (.scalarFeild g) = false := rfl

theorem scalar_valEq_false_of_name_ne {p : Program} {l r : ScalarField}
    (h : (p.schema.field l.definition).name ≠ (p.schema.field r.definition).name) :
    Field.valEq (.scalarFeild r) (.scalarFeild l) = false := by
  rw [show Field.valEq (.scalarFeild r) (.scalarFeild l) = (r == l) from rfl,
    beq_eq_false_iff_ne]
  intro he
  subst he
  exact absurd rfl h

theorem scalar_valEq_false_of_type_ne {p : Program} {l r : ScalarField}
    (h : (p.schema.field l.definition).type_ ≠ (p.schema.field r.definition).type_) :
    Field.valEq (.scalarFeild r) (.scalarFeild l) = false := by
  rw [show Field.valEq (.scalarFeild r) (.scalarFeild l) = (r == l) from rfl,
    beq_eq_false_iff_ne]
  intro he
  subst he
  exact absurd rfl h

/-! ### The mutual-exclusivity test -/

theorem mutually_exclusive_iff (pe : Bool) (lDef rDef : FieldDefinition) :
    is_parent_fields_mutually_exclusive pe lDef rDef = true ↔
      (pe = true ∨ (lDef.parent_type ≠ rDef.parent_type ∧
        (∃ a, lDef.parent_type = some (.object a)) ∧
        (∃ b, rDef.parent_type = some (.object b)))) := by
  cases pe
  · simp only [is_parent_fields_mutually_exclusive, Bool.false_or, Bool.and_eq_true,
      bne_iff_ne, ne_eq]
    cases hl : lDef.parent_type with
    | none => simp
    | some tl =>
      cases hr : rDef.parent_type with
      | none => simp
      | some tr => cases tl <;> cases tr <;> simp
  · simp [is_parent_fields_mutually_exclusive]

theorem mutually_exclusive_of_objects (pe : Bool) {lDef rDef : FieldDefinition}
    {a b : Nat} (hpl : lDef.parent_type = some (.object a))
    (hpr : rDef.parent_type = some (.object b)) (hab : a ≠ b) :
    is_parent_fields_mutually_exclusive pe lDef rDef = true :=
  (mutually_exclusive_iff pe lDef rDef).2
    (Or.inr ⟨by simp [hpl, hpr, hab], ⟨a, hpl⟩, ⟨b, hpr⟩⟩)

theorem mutually_exclusive_false_of {lDef rDef : FieldDefinition}
    (hcase : lDef.parent_type = rDef.parent_type ∨
      (∀ a, lDef.parent_type ≠ some (.object a)) ∨
      (∀ b, rDef.parent_type ≠ some (.object b))) :
    is_parent_fields_mutually_exclusive false lDef rDef = false := by
  cases hb : is_parent_fields_mutually_exclusive false lDef rDef with
  | false => rfl
  | true =>
    rcases (mutually_exclusive_iff false lDef rDef).1 hb with h | ⟨hne, ⟨a, ha⟩, ⟨b, hbb⟩⟩
    · exact absurd h (by simp)
    · rcases hcase with h | h | h
      · exact absurd h hne
      · exact absurd ha (h a)
      · exact absurd hbb (h b)

/-! ### Claim C1 -/

/-- Claim C1, as stated, is false: two scalar fields at the same response key
(alias 5), with different underlying names (10 and 13), declared on two
different concrete object types (object 0 and object 1), do *not* validate
successfully when their result types differ — the insert returns an
`AmbiguousFieldType` diagnostic. -/
theorem C1_cex :
    validateAndInsertFieldSelection 5 P0 σ0 [.scalarFeild ⟨some 5, 0, 100⟩]
        (.scalarFeild ⟨some 5, 3, 101⟩) false
      = (σ0, [.scalarFeild ⟨some 5, 0, 100⟩],
          .err [⟨.ambiguousFieldType 5 10 13 "T" "T", 100, [("the other field", 101)]⟩])
      ∧ (P0.schema.field 0).parent_type = some (.object 0)
      ∧ (P0.schema.field 3).parent_type = some (.object 1)
      ∧ (P0.schema.field 0).name ≠ (P0.schema.field 3).name := by
  refine ⟨rfl, rfl, rfl, by decide⟩

/-- Claim C1 (amended: the success half additionally requires the two fields'
result types to agree, which the source's exclusive scalar–scalar branch
checks; stated for scalar fields — linked fields further recurse into their
children, see C3): the mutual-exclusivity test is true exactly when the
inherited flag is set, or the declaring types differ and are both concrete
object types; for scalar fields at one response key with different underlying
names and equal result types, insertion succeeds when they are declared on
two different concrete object types, and fails with `AmbiguousFieldAlias`
when declared on the same type or on an interface/union parent. -/
theorem C1_exclusivity :
    (∀ (pe : Bool) (lDef rDef : FieldDefinition),
      is_parent_fields_mutually_exclusive pe lDef rDef = true ↔
        (pe = true ∨ (lDef.parent_type ≠ rDef.parent_type ∧
          (∃ a, lDef.parent_type = some (.object a)) ∧
          (∃ b, rDef.parent_type = some (.object b))))) ∧
    (∀ (n : Nat) (p : Program) (σ : Caches) (l r : ScalarField) (a b : Nat),
      (Field.scalarFeild r).get_response_key p.schema
          = (Field.scalarFeild l).get_response_key p.schema →
      (p.schema.field l.definition).name ≠ (p.schema.field r.definition).name →
      (p.schema.field l.definition).parent_type = some (.object a) →
      (p.schema.field r.definition).parent_type = some (.object b) →
      a ≠ b →
      (p.schema.field l.definition).type_ = (p.schema.field r.definition).type_ →
      validateAndInsertFieldSelection (n + 3) p σ [.scalarFeild l] (.scalarFeild r) false
        = (σ, [.scalarFeild l, .scalarFeild r], .ok ())) ∧
    (∀ (n : Nat) (p : Program) (σ : Caches) (l r : ScalarField),
      (Field.scalarFeild r).get_response_key p.schema
          = (Field.scalarFeild l).get_response_key p.schema →
      (p.schema.field l.definition).name ≠ (p.schema.field r.definition).name →
      ((p.schema.field l.definition).parent_type
          = (p.schema.field r.definition).parent_type ∨
        (∀ a, (p.schema.field l.definition).parent_type ≠ some (.object a)) ∨
        (∀ b, (p.schema.field r.definition).parent_type ≠ some (.object b))) →
      validateAndInsertFieldSelection (n + 3) p σ [.scalarFeild l] (.scalarFeild r) false
        = (σ, [.scalarFeild l],
            .err [(Diagnostic.error (.ambiguousFieldAlias
                ((Field.scalarFeild l).get_response_key p.schema)
                (p.schema.field l.definition).name
                (p.schema.field r.definition).name)
              l.location).annotate "the other field" r.location])) := by
  refine ⟨mutually_exclusive_iff, ?_, ?_⟩
  · intro n p σ l r a b hkey hname hpl hpr hab htype
    have hne := scalar_valEq_false_of_name_ne (p := p) hname
    have hexcl : is_parent_fields_mutually_exclusive false
        (p.schema.field l.definition) (p.schema.field r.definition) = true :=
      mutually_exclusive_of_objects false hpl hpr hab
    simp [validateAndInsertFieldSelection, insertScan, hkey, hne, hexcl,
      Field.get_field_definition, htype]
  · intro n p σ l r hkey hname hcase
    have hne := scalar_valEq_false_of_name_ne (p := p) hname
    have hexcl : is_parent_fields_mutually_exclusive false
        (p.schema.field l.definition) (p.schema.field r.definition) = false :=
      mutually_exclusive_false_of hcase
    have hkey' : r.alias_.getD (p.schema.field r.definition).name
        = l.alias_.getD (p.schema.field l.definition).name := hkey
    simp [validateAndInsertFieldSelection, insertScan, hkey', hne, hexcl,
      Field.get_field_definition, Field.get_response_key, hname,
      Diagnostic.error, Diagnostic.annotate, Field.loc]

/-- Witness for C1: concrete success (object 0 versus object 1, equal result
types) and concrete failure (both on object 0). -/
theorem C1_exclusivity_witness :
    validateAndInsertFieldSelection 3 P0 σ0 [.scalarFeild ⟨some 5, 0, 100⟩]
        (.scalarFeild ⟨some 5, 2, 101⟩) false
      = (σ0, [.scalarFeild ⟨some 5, 0, 100⟩, .scalarFeild ⟨some 5, 2, 101⟩], .ok ())
    ∧ validateAndInsertFieldSelection 3 P0 σ0 [.scalarFeild ⟨some 5, 0, 100⟩]
        (.scalarFeild ⟨some 5, 1, 101⟩) false
      = (σ0, [.scalarFeild ⟨some 5, 0, 100⟩],
          .err [⟨.ambiguousFieldAlias 5 10 11, 100, [("the other field", 101)]⟩]) := by
  constructor
  · exact C1_exclusivity.2.1 0 P0 σ0 ⟨some 5, 0, 100⟩ ⟨some 5, 2, 101⟩ 0 1 rfl
      (by decide) rfl rfl (by decide) rfl
  · exact C1_exclusivity.2.2 0 P0 σ0 ⟨some 5, 0, 100⟩ ⟨some 5, 1, 101⟩ rfl
      (by decide) (Or.inl rfl)

/-! ### Claim C4 -/

/-- Claim C4: comparing two scalar fields at one response key: not mutually
exclusive with differing underlying names emits `AmbiguousFieldAlias`;
mutually exclusive with differing result types emits `AmbiguousFieldType`;
mutually exclusive with equal result types emits no diagnostic. -/
theorem C4_scalar_scalar :
    (∀ (n : Nat) (p : Program) (σ : Caches) (l r : ScalarField) (pe : Bool),
      (Field.scalarFeild r).get_response_key p.schema
          = (Field.scalarFeild l).get_response_key p.schema →
      is_parent_fields_mutually_exclusive pe
          (p.schema.field l.definition) (p.schema.field r.definition) = false →
      (p.schema.field l.definition).name ≠ (p.schema.field r.definition).name →
      validateAndInsertFieldSelection (n + 3) p σ [.scalarFeild l] (.scalarFeild r) pe
        = (σ, [.scalarFeild l],
            .err [(Diagnostic.error (.ambiguousFieldAlias
                ((Field.scalarFeild l).get_response_key p.schema)
                (p.schema.field l.definition).name
                (p.schema.field r.definition).name)
              l.location).annotate "the other field" r.location])) ∧
    (∀ (n : Nat) (p : Program) (σ : Caches) (l r : ScalarField) (pe : Bool),
      (Field.scalarFeild r).get_response_key p.schema
          = (Field.scalarFeild l).get_response_key p.schema →
      is_parent_fields_mutually_exclusive pe
          (p.schema.field l.definition) (p.schema.field r.definition) = true →
      (p.schema.field l.definition).type_ ≠ (p.schema.field r.definition).type_ →
      validateAndInsertFieldSelection (n + 3) p σ [.scalarFeild l] (.scalarFeild r) pe
        = (σ, [.scalarFeild l],
            .err [(Diagnostic.error (.ambiguousFieldType
                ((Field.scalarFeild l).get_response_key p.schema)
                (p.schema.field l.definition).name
                (p.schema.field r.definition).name
                (p.schema.get_type_string (p.schema.field l.definition).type_)
                (p.schema.get_type_string (p.schema.field r.definition).type_))
              l.location).annotate "the other field" r.location])) ∧
    (∀ (n : Nat) (p : Program) (σ : Caches) (l r : ScalarField) (pe : Bool),
      (Field.scalarFeild r).get_response_key p.schema
          = (Field.scalarFeild l).get_response_key p.schema →
      is_parent_fields_mutually_exclusive pe
          (p.schema.field l.definition) (p.schema.field r.definition) = true →
      (p.schema.field l.definition).type_ = (p.schema.field r.definition).type_ →
      (validateAndInsertFieldSelection (n + 3) p σ [.scalarFeild l]
          (.scalarFeild r) pe).2.2 = .ok ()) := by
  refine ⟨?_, ?_, ?_⟩
  · intro n p σ l r pe hkey hexcl hname
    have hne := scalar_valEq_false_of_name_ne (p := p) hname
    have hkey' : r.alias_.getD (p.schema.field r.definition).name
        = l.alias_.getD (p.schema.field l.definition).name := hkey
    simp [validateAndInsertFieldSelection, insertScan, hkey', hne, hexcl,
      Field.get_field_definition, Field.get_response_key, hname,
      Diagnostic.error, Diagnostic.annotate, Field.loc]
  · intro n p σ l r pe hkey hexcl htype
    have hne := scalar_valEq_false_of_type_ne (p := p) htype
    have hkey' : r.alias_.getD (p.schema.field r.definition).name
        = l.alias_.getD (p.schema.field l.definition).name := hkey
    simp [validateAndInsertFieldSelection, insertScan, hkey', hne, hexcl,
      Field.get_field_definition, Field.get_response_key, htype,
      Diagnostic.error, Diagnostic.annotate, Field.loc]
  · intro n p σ l r pe hkey hexcl htype
    have hkey' : r.alias_.getD (p.schema.field r.definition).name
        = l.alias_.getD (p.schema.field l.definition).name := hkey
    cases hv : Field.valEq (.scalarFeild r) (.scalarFeild l) with
    | true =>
        simp [validateAndInsertFieldSelection, insertScan, hkey', hv,
          Field.get_response_key]
    | false =>
        simp [validateAndInsertFieldSelection, insertScan, hkey', hv, hexcl,
          Field.get_field_definition, Field.get_response_key, htype]

/-- Witness for C4: concrete alias error (same object type, names 10/11),
concrete type error (objects 0/1, result types differ) and concrete success
(objects 0/1, equal result types). -/
theorem C4_scalar_scalar_witness :
    validateAndInsertFieldSelection 3 P0 σ0 [.scalarFeild ⟨some 5, 0, 100⟩]
        (.scalarFeild ⟨some 5, 1, 101⟩) false
      = (σ0, [.scalarFeild ⟨some 5, 0, 100⟩],
          .err [⟨.ambiguousFieldAlias 5 10 11, 100, [("the other field", 101)]⟩])
    ∧ validateAndInsertFieldSelection 3 P0 σ0 [.scalarFeild ⟨some 5, 0, 100⟩]
        (.scalarFeild ⟨some 5, 3, 101⟩) false
      = (σ0, [.scalarFeild ⟨some 5, 0, 100⟩],
          .err [⟨.ambiguousFieldType 5 10 13 "T" "T", 100, [("the other field", 101)]⟩])
    ∧ (validateAndInsertFieldSelection 3 P0 σ0 [.scalarFeild ⟨some 5, 0, 100⟩]
        (.scalarFeild ⟨some 5, 2, 101⟩) false).2.2 = .ok () := by
  refine ⟨?_, ?_, ?_⟩
  · exact C4_scalar_scalar.1 0 P0 σ0 ⟨some 5, 0, 100⟩ ⟨some 5, 1, 101⟩ false rfl
      (by decide) (by decide)
  · exact C4_scalar_scalar.2.1 0 P0 σ0 ⟨some 5, 0, 100⟩ ⟨some 5, 3, 101⟩ false rfl
      (by decide) (by decide)
  · exact C4_scalar_scalar.2.2 0 P0 σ0 ⟨some 5, 0, 100⟩ ⟨some 5, 2, 101⟩ false rfl
      (by decide) (by decide)

/-! ### Claim C5 -/

/-- Claim C5: a linked field and a scalar field at the same response key
always produce an `AmbiguousFieldType` diagnostic, for either order of the
pair and regardless of the mutual-exclusivity flag. -/
theorem C5_kind_mismatch :
    (∀ (n : Nat) (p : Program) (σ : Caches) (l : LinkedField) (r : ScalarField)
      (pe : Bool),
      (Field.scalarFeild r).get_response_key p.schema
          = (Field.linkedField l).get_response_key p.schema →
      validateAndInsertFieldSelection (n + 3) p σ [.linkedField l] (.scalarFeild r) pe
        = (σ, [.linkedField l],
            .err [(Diagnostic.error (.ambiguousFieldType
                ((Field.linkedField l).get_response_key p.schema)
                (p.schema.field l.definition).name
                (p.schema.field r.definition).name
                (p.schema.get_type_string (p.schema.field l.definition).type_)
                (p.schema.get_type_string (p.schema.field r.definition).type_))
              l.location).annotate "the other field" r.location])) ∧
    (∀ (n : Nat) (p : Program) (σ : Caches) (l : ScalarField) (r : LinkedField)
      (pe : Bool),
      (Field.linkedField r).get_response_key p.schema
          = (Field.scalarFeild l).get_response_key p.schema →
      validateAndInsertFieldSelection (n + 3) p σ [.scalarFeild l] (.linkedField r) pe
        = (σ, [.scalarFeild l],
            .err [(Diagnostic.error (.ambiguousFieldType
                ((Field.scalarFeild l).get_response_key p.schema)
                (p.schema.field l.definition).name
                (p.schema.field r.definition).name
                (p.schema.get_type_string (p.schema.field l.definition).type_)
                (p.schema.get_type_string (p.schema.field r.definition).type_))
              l.location).annotate "the other field" r.location])) := by
  constructor
  · intro n p σ l r pe hkey
    have hkey' : r.alias_.getD (p.schema.field r.definition).name
        = l.alias_.getD (p.schema.field l.definition).name := hkey
    simp [validateAndInsertFieldSelection, insertScan, hkey', valEq_scalar_linked,
      Field.get_field_definition, Field.get_response_key,
      Diagnostic.error, Diagnostic.annotate, Field.loc]
  · intro n p σ l r pe hkey
    have hkey' : r.alias_.getD (p.schema.field r.definition).name
        = l.alias_.getD (p.schema.field l.definition).name := hkey
    simp [validateAndInsertFieldSelection, insertScan, hkey', valEq_linked_scalar,
      Field.get_field_definition, Field.get_response_key,
      Diagnostic.error, Diagnostic.annotate, Field.loc]

/-- Witness for C5: a linked and a scalar field at response key 5, both
orders, with the mutual-exclusivity flag set. -/
theorem C5_kind_mismatch_witness :
    validateAndInsertFieldSelection 3 P0 σ0 [.linkedField ⟨some 5, 5, 100, 0, []⟩]
        (.scalarFeild ⟨some 5, 0, 101⟩) true
      = (σ0, [.linkedField ⟨some 5, 5, 100, 0, []⟩],
          .err [⟨.ambiguousFieldType 5 15 10 "T" "T", 100, [("the other field", 101)]⟩])
    ∧ validateAndInsertFieldSelection 3 P0 σ0 [.scalarFeild ⟨some 5, 0, 100⟩]
        (.linkedField ⟨some 5, 5, 101, 0, []⟩) true
      = (σ0, [.scalarFeild ⟨some 5, 0, 100⟩],
          .err [⟨.ambiguousFieldType 5 10 15 "T" "T", 100, [("the other field", 101)]⟩]) := by
  constructor
  · exact C5_kind_mismatch.1 0 P0 σ0 ⟨some 5, 5, 100, 0, []⟩ ⟨some 5, 0, 101⟩ true rfl
  · exact C5_kind_mismatch.2 0 P0 σ0 ⟨some 5, 0, 100⟩ ⟨some 5, 5, 101, 0, []⟩ true rfl

/-! ### Claim C2 -/

/-- Claim C2: a value-identical same-key entry short-circuits the scan,
returning success exactly when no errors were collected against earlier
same-key entries in the call, and returning (not discarding) any such
earlier errors; in particular, inserting a field value-identical to the
existing entry succeeds with no diagnostic; and in the three-entry scenario
(entry 1 a genuine conflict, entry 2 an exact match of the candidate) the
earlier conflict is still returned. -/
theorem C2_fast_path :
    (∀ (n : Nat) (p : Program) (σ : Caches) (e : Field) (rest : Fields)
      (field : Field) (k : Nat) (pe : Bool) (errs : List Diagnostic),
      (k != e.get_response_key p.schema) = false →
      Field.valEq field e = true →
      insertScan (n + 1) p σ (e :: rest) field k pe errs
        = (σ, .scanReturn (if errs.isEmpty then .ok () else .err errs))) ∧
    (∀ (n : Nat) (p : Program) (σ : Caches) (a : Field) (pe : Bool),
      validateAndInsertFieldSelection (n + 2) p σ [a] a pe = (σ, [a], .ok ())) ∧
    validateAndInsertFieldSelection 5 P0 σ0
        [.scalarFeild ⟨some 5, 1, 101⟩, .scalarFeild ⟨some 5, 0, 100⟩]
        (.scalarFeild ⟨some 5, 0, 100⟩) false
      = (σ0, [.scalarFeild ⟨some 5, 1, 101⟩, .scalarFeild ⟨some 5, 0, 100⟩],
          .err [⟨.ambiguousFieldAlias 5 11 10, 101, [("the other field", 100)]⟩]) := by
  refine ⟨?_, ?_, rfl⟩
  · intro n p σ e rest field k pe errs h1 h2
    simp [insertScan, h1, h2]
  · intro n p σ a pe
    simp [validateAndInsertFieldSelection, insertScan, Field.valEq_refl]

/-- Witness for C2: the fast path applied to a concrete identical pair with a
previously collected error, and the trivial identical-pair success. -/
theorem C2_fast_path_witness :
    insertScan 1 P0 σ0 [.scalarFeild ⟨some 5, 0, 100⟩]
        (.scalarFeild ⟨some 5, 0, 100⟩) 5 false
        [⟨.ambiguousFieldAlias 5 11 10, 101, [("the other field", 100)]⟩]
      = (σ0, .scanReturn
          (.err [⟨.ambiguousFieldAlias 5 11 10, 101, [("the other field", 100)]⟩]))
    ∧ validateAndInsertFieldSelection 2 P0 σ0 [.scalarFeild ⟨some 5, 0, 100⟩]
        (.scalarFeild ⟨some 5, 0, 100⟩) false
      = (σ0, [.scalarFeild ⟨some 5, 0, 100⟩], .ok ()) := by
  constructor
  · exact C2_fast_path.1 0 P0 σ0 (.scalarFeild ⟨some 5, 0, 100⟩) []
      (.scalarFeild ⟨some 5, 0, 100⟩) 5 false
      [⟨.ambiguousFieldAlias 5 11 10, 101, [("the other field", 100)]⟩]
      (by decide) (by decide)
  · exact C2_fast_path.2.1 0 P0 σ0 (.scalarFeild ⟨some 5, 0, 100⟩) false

/-! ### Claim C6 -/

/-- An early successful `return` from the scan loop only arises from the
exact-match fast path, so some scanned entry is value-identical to the
candidate. -/
theorem insertScan_return_ok :
    ∀ (n : Nat) (p : Program) (σ : Caches) (fields : Fields) (field : Field)
      (k : Nat) (pe : Bool) (errs : List Diagnostic) (σ' : Caches),
      insertScan n p σ fields field k pe errs = (σ', .scanReturn (.ok ())) →
      ∃ g ∈ fields, Field.valEq field g = true := by
  intro n
  induction n with
  | zero =>
      intro p σ fields field k pe errs σ' h
      simp [insertScan] at h
  | succ n ih =>
      intro p σ fields field k pe errs σ' h
      cases fields with
      | nil => simp [insertScan] at h
      | cons e rest =>
          simp only [insertScan] at h
          split at h
          · obtain ⟨g, hg, hv⟩ := ih _ _ _ _ _ _ _ _ h
            exact ⟨g, List.mem_cons_of_mem _ hg, hv⟩
          · split at h
            · next hv => exact ⟨e, List.mem_cons_self _ _, hv⟩
            · repeat' split at h
              all_goals
                first
                | (exact (ih _ _ _ _ _ _ _ _ h).elim fun g hgv =>
                    ⟨g, List.mem_cons_of_mem _ hgv.1, hgv.2⟩)
                | (exact absurd h (by simp))

/-- Claim C6, as stated, is false: inserting a candidate value-identical to
the existing entry returns success — so the local error list is empty — yet
the candidate is *not* appended to the accumulator (the fast path returns
before the append). -/
theorem C6_cex :
    validateAndInsertFieldSelection 3 P0 σ0 [.scalarFeild ⟨some 5, 0, 100⟩]
        (.scalarFeild ⟨some 5, 0, 100⟩) false
      = (σ0, [.scalarFeild ⟨some 5, 0, 100⟩], .ok ())
    ∧ ([Field.scalarFeild ⟨some 5, 0, 100⟩] : Fields)
        ≠ [.scalarFeild ⟨some 5, 0, 100⟩, .scalarFeild ⟨some 5, 0, 100⟩] := by
  refine ⟨rfl, ?_⟩
  simp

/-- Claim C6 (amended: the equivalence holds unless a value-identical
same-key entry short-circuits the scan, in which case the call can succeed
without appending): an erroring insert never appends and returns the
collected errors; a successful insert appends the candidate or leaves the
accumulator unchanged; and when no existing entry is value-identical to the
candidate, a successful insert always appends it. -/
theorem C6_append_iff :
    ∀ (n : Nat) (p : Program) (σ : Caches) (fields : Fields) (field : Field)
      (pe : Bool) (σ' : Caches) (fs' : Fields) (r : VRes Unit),
      validateAndInsertFieldSelection n p σ fields field pe = (σ', fs', r) →
      (∀ es, r = .err es → fs' = fields) ∧
        (r = .ok () → fs' = fields ++ [field] ∨ fs' = fields) ∧
        ((∀ g ∈ fields, Field.valEq field g = false) → r = .ok () →
          fs' = fields ++ [field]) := by
  intro n p σ fields field pe σ' fs' r h
  cases n with
  | zero =>
      obtain ⟨rfl, rfl, rfl⟩ :
          σ = σ' ∧ fields = fs' ∧ VRes.stuck (α := Unit) = r := by
        simpa [validateAndInsertFieldSelection] using h
      exact ⟨(fun es hes => nomatch hes), (fun hok => nomatch hok),
        (fun _ hok => nomatch hok)⟩
  | succ n =>
      rw [show validateAndInsertFieldSelection (n + 1) p σ fields field pe
          = (match insertScan n p σ fields field
                (field.get_response_key p.schema) pe [] with
              | (σ1, .scanDone errs) =>
                  if errs.isEmpty then (σ1, fields ++ [field], .ok ())
                  else (σ1, fields, .err errs)
              | (σ1, .scanReturn r0) => (σ1, fields, r0)
              | (σ1, .scanStuck) => (σ1, fields, .stuck)) from rfl] at h
      cases hscan : insertScan n p σ fields field
          (field.get_response_key p.schema) pe [] with
      | mk σ1 sres =>
          rw [hscan] at h
          cases sres with
          | scanDone errs =>
              by_cases he : errs.isEmpty
              · simp only [he, if_true] at h
                obtain ⟨rfl, rfl, rfl⟩ :
                    σ1 = σ' ∧ fields ++ [field] = fs' ∧ VRes.ok () = r := by
                  simpa using h
                exact ⟨(fun es hes => nomatch hes), (fun _ => Or.inl rfl),
                  (fun _ _ => rfl)⟩
              · simp only [he, if_false] at h
                obtain ⟨rfl, rfl, rfl⟩ :
                    σ1 = σ' ∧ fields = fs' ∧ VRes.err errs = r := by
                  simpa using h
                exact ⟨(fun es _ => rfl), (fun hok => nomatch hok),
                  (fun _ hok => nomatch hok)⟩
          | scanReturn r0 =>
              obtain ⟨rfl, rfl, rfl⟩ : σ1 = σ' ∧ fields = fs' ∧ r0 = r := by
                simpa using h
              refine ⟨fun es _ => rfl, fun _ => Or.inr rfl, fun hnone hok => ?_⟩
              subst hok
              obtain ⟨g, hg, hv⟩ := insertScan_return_ok _ _ _ _ _ _ _ _ _ hscan
              exact absurd hv (by simp [hnone g hg])
          | scanStuck =>
              obtain ⟨rfl, rfl, rfl⟩ :
                  σ1 = σ' ∧ fields = fs' ∧ VRes.stuck (α := Unit) = r := by
                simpa using h
              exact ⟨(fun es hes => nomatch hes), (fun hok => nomatch hok),
                (fun _ hok => nomatch hok)⟩

/-- Witness for C6: a fresh scalar field inserted into an accumulator with no
value-identical entry is appended on success. -/
theorem C6_append_iff_witness :
    ([Field.scalarFeild ⟨some 5, 0, 100⟩] : Fields)
        = [] ++ [Field.scalarFeild ⟨some 5, 0, 100⟩] := by
  have h := C6_append_iff 2 P0 σ0 [] (.scalarFeild ⟨some 5, 0, 100⟩) false
    σ0 [.scalarFeild ⟨some 5, 0, 100⟩] (.ok ()) rfl
  exact h.2.2 (by simp) rfl

/-! ### Claim C3 -/

/-- Claim C3: comparing two linked fields at one response key emits
`AmbiguousFieldAlias` exactly when they are not mutually exclusive and their
underlying names differ, and in every case the two fields' resolved child
lists are merged with the computed exclusivity value as the nested
`parent_exclusive` flag — nested-merge errors are appended after the alias
error; concretely, a child conflict surfaces under the nested response key
(7), not the outer key (5). -/
theorem C3_linked_linked :
    (∀ (n : Nat) (p : Program) (σ σ1 σ2 σ3 : Caches) (l r : LinkedField)
      (pe : Bool) (lFields rFields left' : Fields),
      (Field.linkedField r).get_response_key p.schema
          = (Field.linkedField l).get_response_key p.schema →
      Field.valEq (.linkedField r) (.linkedField l) = false →
      validateLinkedFieldSelections (n + 1) p σ l = (σ1, .ok lFields) →
      validateLinkedFieldSelections (n + 1) p σ1 r = (σ2, .ok rFields) →
      validateAndMergeFields (n + 1) p σ2 lFields rFields
          (is_parent_fields_mutually_exclusive pe
            (p.schema.field l.definition) (p.schema.field r.definition))
        = (σ3, left', .ok ()) →
      validateAndInsertFieldSelection (n + 3) p σ [.linkedField l] (.linkedField r) pe
        = (σ3,
            if (!is_parent_fields_mutually_exclusive pe
                  (p.schema.field l.definition) (p.schema.field r.definition)
                && (p.schema.field l.definition).name
                  != (p.schema.field r.definition).name) = true
            then ([.linkedField l],
              .err [(Diagnostic.error (.ambiguousFieldAlias
                  ((Field.linkedField l).get_response_key p.schema)
                  (p.schema.field l.definition).name
                  (p.schema.field r.definition).name)
                l.location).annotate "the other field" r.location])
            else ([.linkedField l, .linkedField r], .ok ()))) ∧
    (∀ (n : Nat) (p : Program) (σ σ1 σ2 σ3 : Caches) (l r : LinkedField)
      (pe : Bool) (lFields rFields left' : Fields) (es : List Diagnostic),
      (Field.linkedField r).get_response_key p.schema
          = (Field.linkedField l).get_response_key p.schema →
      Field.valEq (.linkedField r) (.linkedField l) = false →
      es ≠ [] →
      validateLinkedFieldSelections (n + 1) p σ l = (σ1, .ok lFields) →
      validateLinkedFieldSelections (n + 1) p σ1 r = (σ2, .ok rFields) →
      validateAndMergeFields (n + 1) p σ2 lFields rFields
          (is_parent_fields_mutually_exclusive pe
            (p.schema.field l.definition) (p.schema.field r.definition))
        = (σ3, left', .err es) →
      validateAndInsertFieldSelection (n + 3) p σ [.linkedField l] (.linkedField r) pe
        = (σ3, [.linkedField l],
            .err ((if (!is_parent_fields_mutually_exclusive pe
                      (p.schema.field l.definition) (p.schema.field r.definition)
                    && (p.schema.field l.definition).name
                      != (p.schema.field r.definition).name) = true
                then [(Diagnostic.error (.ambiguousFieldAlias
                    ((Field.linkedField l).get_response_key p.schema)
                    (p.schema.field l.definition).name
                    (p.schema.field r.definition).name)
                  l.location).annotate "the other field" r.location]
                else []) ++ es))) ∧
    ((validateAndInsertFieldSelection 9 P0 σ0
        [.linkedField ⟨some 5, 5, 100, 0, [.scalarField ⟨some 7, 0, 200⟩]⟩]
        (.linkedField ⟨some 5, 6, 101, 1, [.scalarField ⟨some 7, 1, 201⟩]⟩) false).2.2
      = .err [⟨.ambiguousFieldAlias 7 10 11, 200, [("the other field", 201)]⟩]
      ∧ (7 : Nat) ≠ 5) := by
  refine ⟨?_, ?_, rfl, by decide⟩
  · intro n p σ σ1 σ2 σ3 l r pe lFields rFields left' hkey hne hl hr hm
    have hkey' : r.alias_.getD (p.schema.field r.definition).name
        = l.alias_.getD (p.schema.field l.definition).name := hkey
    by_cases hc : (!is_parent_fields_mutually_exclusive pe
        (p.schema.field l.definition) (p.schema.field r.definition)
        && (p.schema.field l.definition).name
          != (p.schema.field r.definition).name) = true
    · simp [validateAndInsertFieldSelection, insertScan, hkey', hne, hl, hr, hm,
        hc, Field.get_field_definition, Field.get_response_key,
        Diagnostic.error, Diagnostic.annotate]
    · simp [validateAndInsertFieldSelection, insertScan, hkey', hne, hl, hr, hm,
        hc, Field.get_field_definition, Field.get_response_key,
        Diagnostic.error, Diagnostic.annotate]
  · intro n p σ σ1 σ2 σ3 l r pe lFields rFields left' es hkey hne hes hl hr hm
    have hkey' : r.alias_.getD (p.schema.field r.definition).name
        = l.alias_.getD (p.schema.field l.definition).name := hkey
    rcases es with _ | ⟨e0, es'⟩
    · exact absurd rfl hes
    · by_cases hc : (!is_parent_fields_mutually_exclusive pe
          (p.schema.field l.definition) (p.schema.field r.definition)
          && (p.schema.field l.definition).name
            != (p.schema.field r.definition).name) = true
      · simp [validateAndInsertFieldSelection, insertScan, hkey', hne, hl, hr, hm,
          hc, Field.get_field_definition, Field.get_response_key,
          Diagnostic.error, Diagnostic.annotate]
      · simp [validateAndInsertFieldSelection, insertScan, hkey', hne, hl, hr, hm,
          hc, Field.get_field_definition, Field.get_response_key,
          Diagnostic.error, Diagnostic.annotate]

/-- Witness for C3: two linked fields with the same underlying name and empty
child lists merge successfully; the child caches are populated, the
candidate is appended, and no diagnostic is produced. -/
theorem C3_linked_linked_witness :
    validateAndInsertFieldSelection 6 P0 σ0 [.linkedField ⟨some 5, 5, 100, 0, []⟩]
        (.linkedField ⟨some 5, 6, 101, 1, []⟩) false
      = (⟨[], [(1, []), (0, [])]⟩,
          [.linkedField ⟨some 5, 5, 100, 0, []⟩, .linkedField ⟨some 5, 6, 101, 1, []⟩],
          .ok ()) := by
  have h := C3_linked_linked.1 3 P0 σ0 ⟨[], [(0, [])]⟩ ⟨[], [(1, []), (0, [])]⟩
    ⟨[], [(1, []), (0, [])]⟩ ⟨some 5, 5, 100, 0, []⟩ ⟨some 5, 6, 101, 1, []⟩ false
    [] [] [] rfl (by decide) rfl rfl rfl
  simpa using h

/-! ### Claim C8 -/

/-- Claim C8: the driver validates every operation and, separately, every
named fragment; the diagnostics of all tasks are concatenated (operations
first, then fragments) and the pass fails exactly when at least one task
produced at least one diagnostic; in particular a program with no operations
still fails when one of its fragments produces a diagnostic. -/
theorem C8_driver :
    (∀ (fuel : Nat) (p : Program) (σ σ1 σ2 : Caches) (es1 es2 : List Diagnostic),
      runOperations fuel p σ p.operations [] = (σ1, some es1) →
      runFragments fuel p σ1 p.fragments [] = (σ2, some es2) →
      validateProgram fuel p σ
          = (σ2, if (es1 ++ es2).isEmpty then .ok () else .err (es1 ++ es2))
        ∧ ((validateProgram fuel p σ).2 = .ok () ↔ (es1 = [] ∧ es2 = []))) ∧
    (∀ (fuel : Nat) (p : Program) (σ σ2 : Caches) (es2 : List Diagnostic),
      p.operations = [] →
      runFragments fuel p σ p.fragments [] = (σ2, some es2) →
      es2 ≠ [] →
      validateProgram fuel p σ = (σ2, .err es2)) := by
  constructor
  · intro fuel p σ σ1 σ2 es1 es2 h1 h2
    rcases es1 with _ | ⟨d1, es1⟩ <;> rcases es2 with _ | ⟨d2, es2⟩ <;>
      exact ⟨by simp [validateProgram, h1, h2], by simp [validateProgram, h1, h2]⟩
  · intro fuel p σ σ2 es2 hops h2 hes
    rcases es2 with _ | ⟨d2, es2⟩
    · exact absurd rfl hes
    · simp [validateProgram, hops, runOperations, h2]

/-- Witness for C8: a program with no operations and a single conflicting
fragment fails with exactly that fragment's diagnostic. -/
theorem C8_driver_witness :
    validateProgram 9 conflictProgram σ0
      = (σ0, .err [⟨.ambiguousFieldAlias 5 10 11, 100, [("the other field", 101)]⟩]) :=
  C8_driver.2 9 conflictProgram σ0 σ0
    [⟨.ambiguousFieldAlias 5 10 11, 100, [("the other field", 101)]⟩]
    rfl rfl (by simp)

/-! ### Claim C10 -/

/-- Claim C10: only successful flattenings are cached — when flattening a
fragment's selections fails, `validate_and_collect_fragment` returns the
error and the flattener's cache state unchanged, inserting nothing itself;
consequently a fragment with a conflicting body (whose flattening touches no
cache) yields the same diagnostics at every resolution, from any cache state
not containing its name, leaving the state untouched. -/
theorem C10_no_error_caching :
    (∀ (n : Nat) (p : Program) (σ σ' : Caches) (frag : FragmentDefinition)
      (es : List Diagnostic),
      σ.fragmentCache.lookup frag.name = none →
      validateSelections n p σ frag.selections = (σ', .err es) →
      validateAndCollectFragment (n + 1) p σ frag = (σ', .err es)) ∧
    (∀ (n : Nat) (σ : Caches),
      σ.fragmentCache.lookup 1 = none →
      validateAndCollectFragment (n + 9) conflictProgram σ conflictFragment
        = (σ, .err [⟨.ambiguousFieldAlias 5 10 11, 100, [("the other field", 101)]⟩])) := by
  constructor
  · intro n p σ σ' frag es hlook hflat
    simp [validateAndCollectFragment, hlook, hflat]
  · intro n σ hlook
    simp [validateAndCollectFragment, conflictFragment, hlook, validateSelections,
      validateSelectionsGo, validateSelection, validateAndInsertFieldSelection,
      insertScan, conflictProgram, testSchema, Diagnostic.error, Diagnostic.annotate,
      Field.get_response_key, Field.get_field_definition, Field.valEq,
      is_parent_fields_mutually_exclusive, Field.loc]

/-- Witness for C10: resolving the conflicting fragment from the empty cache
state errors and leaves the state empty. -/
theorem C10_no_error_caching_witness :
    validateAndCollectFragment 9 conflictProgram σ0 conflictFragment
      = (σ0, .err [⟨.ambiguousFieldAlias 5 10 11, 100, [("the other field", 101)]⟩]) :=
  C10_no_error_caching.2 0 σ0 rfl

/-! ### Fuel monotonicity of the cache-free flattener -/

/-- Adding one unit of fuel does not change a non-stuck result of the
cache-free flattener (stated jointly for the whole mutual family). -/
theorem ncStep : ∀ n : Nat,
    (∀ (p : Program) (sels : List Selection),
      flattenSelectionsNC n p sels ≠ .stuck →
      flattenSelectionsNC (n + 1) p sels = flattenSelectionsNC n p sels) ∧
    (∀ (p : Program) (fields : Fields) (errs : List Diagnostic)
      (sels : List Selection),
      flattenSelectionsGoNC n p fields errs sels ≠ .stuck →
      flattenSelectionsGoNC (n + 1) p fields errs sels
        = flattenSelectionsGoNC n p fields errs sels) ∧
    (∀ (p : Program) (fields : Fields) (s : Selection),
      (flattenSelectionNC n p fields s).2 ≠ .stuck →
      flattenSelectionNC (n + 1) p fields s = flattenSelectionNC n p fields s) ∧
    (∀ (p : Program) (frag : FragmentDefinition),
      collectFragmentNC n p frag ≠ .stuck →
      collectFragmentNC (n + 1) p frag = collectFragmentNC n p frag) ∧
    (∀ (p : Program) (lf : LinkedField),
      flattenLinkedFieldNC n p lf ≠ .stuck →
      flattenLinkedFieldNC (n + 1) p lf = flattenLinkedFieldNC n p lf) ∧
    (∀ (p : Program) (left right : Fields) (excl : Bool),
      (mergeFieldsNC n p left right excl).2 ≠ .stuck →
      mergeFieldsNC (n + 1) p left right excl = mergeFieldsNC n p left right excl) ∧
    (∀ (p : Program) (left : Fields) (errs : List Diagnostic) (right : Fields)
      (excl : Bool),
      (mergeFieldsGoNC n p left errs right excl).2 ≠ .stuck →
      mergeFieldsGoNC (n + 1) p left errs right excl
        = mergeFieldsGoNC n p left errs right excl) ∧
    (∀ (p : Program) (fields : Fields) (field : Field) (pe : Bool),
      (insertFieldNC n p fields field pe).2 ≠ .stuck →
      insertFieldNC (n + 1) p fields field pe = insertFieldNC n p fields field pe) ∧
    (∀ (p : Program) (fields : Fields) (field : Field) (k : Nat) (pe : Bool)
      (errs : List Diagnostic),
      insertScanNC n p fields field k pe errs ≠ .scanStuck →
      insertScanNC (n + 1) p fields field k pe errs
        = insertScanNC n p fields field k pe errs) := by
  intro n
  induction n with
  | zero =>
      refine ⟨?_, ?_, ?_, ?_, ?_, ?_, ?_, ?_, ?_⟩ <;>
        · intros
          exact absurd rfl (by assumption)
  | succ n ih =>
      obtain ⟨ihSels, ihGo, ihSel, ihCol, ihLF, ihMg, ihMgo, ihIns, ihScan⟩ := ih
      refine ⟨?_, ?_, ?_, ?_, ?_, ?_, ?_, ?_, ?_⟩
      · intro p sels h
        exact ihGo p [] [] sels h
      · intro p fields errs sels h
        cases sels with
        | nil => rfl
        | cons s rest =>
            rcases hs : flattenSelectionNC n p fields s with ⟨fields', r⟩
            have hs2 := hs
            cases r with
            | stuck =>
                simp only [flattenSelectionsGoNC, hs] at h
                exact absurd rfl h
            | ok u =>
                have hs' : flattenSelectionNC (n + 1) p fields s = (fields', .ok u) := by
                  rw [ihSel p fields s (by rw [hs]; simp), hs]
                simp only [flattenSelectionsGoNC, hs] at h ⊢
                simp only [hs']
                exact ihGo p fields' errs rest h
            | err es =>
                have hs' : flattenSelectionNC (n + 1) p fields s = (fields', .err es) := by
                  rw [ihSel p fields s (by rw [hs]; simp), hs]
                simp only [flattenSelectionsGoNC, hs] at h ⊢
                simp only [hs']
                exact ihGo p fields' (errs ++ es) rest h
      · intro p fields s h
        cases s with
        | linkedField a d loc i sels =>
            rcases hlf : flattenLinkedFieldNC n p ⟨a, d, loc, i, sels⟩ with rl
            cases rl with
            | stuck =>
                simp only [flattenSelectionNC, hlf] at h
                exact absurd rfl h
            | ok u =>
                have hlf' : flattenLinkedFieldNC (n + 1) p ⟨a, d, loc, i, sels⟩ = .ok u := by
                  rw [ihLF p _ (by rw [hlf]; simp), hlf]
                simp only [flattenSelectionNC, hlf] at h ⊢
                simp only [hlf']
                exact ihIns p fields _ false h
            | err es =>
                have hlf' : flattenLinkedFieldNC (n + 1) p ⟨a, d, loc, i, sels⟩ = .err es := by
                  rw [ihLF p _ (by rw [hlf]; simp), hlf]
                simp only [flattenSelectionNC, hlf] at h ⊢
                simp only [hlf']
        | scalarField sf =>
            simp only [flattenSelectionNC] at h ⊢
            exact ihIns p fields _ false h
        | condition sels =>
            rcases hflat : flattenSelectionsNC n p sels with rl
            cases rl with
            | stuck =>
                simp only [flattenSelectionNC, hflat] at h
                exact absurd rfl h
            | ok newFields =>
                have hflat' : flattenSelectionsNC (n + 1) p sels = .ok newFields := by
                  rw [ihSels p sels (by rw [hflat]; simp), hflat]
                simp only [flattenSelectionNC, hflat] at h ⊢
                simp only [hflat']
                exact ihMg p fields newFields false h
            | err es =>
                have hflat' : flattenSelectionsNC (n + 1) p sels = .err es := by
                  rw [ihSels p sels (by rw [hflat]; simp), hflat]
                simp only [flattenSelectionNC, hflat] at h ⊢
                simp only [hflat']
        | inlineFragment sels =>
            rcases hflat : flattenSelectionsNC n p sels with rl
            cases rl with
            | stuck =>
                simp only [flattenSelectionNC, hflat] at h
                exact absurd rfl h
            | ok newFields =>
                have hflat' : flattenSelectionsNC (n + 1) p sels = .ok newFields := by
                  rw [ihSels p sels (by rw [hflat]; simp), hflat]
                simp only [flattenSelectionNC, hflat] at h ⊢
                simp only [hflat']
                exact ihMg p fields newFields false h
            | err es =>
                have hflat' : flattenSelectionsNC (n + 1) p sels = .err es := by
                  rw [ihSels p sels (by rw [hflat]; simp), hflat]
                simp only [flattenSelectionNC, hflat] at h ⊢
                simp only [hflat']
        | fragmentSpread name =>
            rcases hfr : p.fragments.lookup name with _ | frag
            · simp only [flattenSelectionNC, hfr] at h
              exact absurd rfl h
            · rcases hcol : collectFragmentNC n p frag with rl
              cases rl with
              | stuck =>
                  simp only [flattenSelectionNC, hfr, hcol] at h
                  exact absurd rfl h
              | ok newFields =>
                  have hcol' : collectFragmentNC (n + 1) p frag = .ok newFields := by
                    rw [ihCol p frag (by rw [hcol]; simp), hcol]
                  simp only [flattenSelectionNC, hfr, hcol] at h ⊢
                  simp only [hcol']
                  exact ihMg p fields newFields false h
              | err es =>
                  have hcol' : collectFragmentNC (n + 1) p frag = .err es := by
                    rw [ihCol p frag (by rw [hcol]; simp), hcol]
                  simp only [flattenSelectionNC, hfr, hcol] at h ⊢
                  simp only [hcol']
      · intro p frag h
        exact ihSels p frag.selections h
      · intro p lf h
        exact ihSels p lf.selections h
      · intro p left right excl h
        exact ihMgo p left [] right excl h
      · intro p left errs right excl h
        cases right with
        | nil => rfl
        | cons f rest =>
            rcases hf : insertFieldNC n p left f excl with ⟨left', r⟩
            cases r with
            | stuck =>
                simp only [mergeFieldsGoNC, hf] at h
                exact absurd rfl h
            | ok u =>
                have hf' : insertFieldNC (n + 1) p left f excl = (left', .ok u) := by
                  rw [ihIns p left f excl (by rw [hf]; simp), hf]
                simp only [mergeFieldsGoNC, hf] at h ⊢
                simp only [hf']
                exact ihMgo p left' errs rest excl h
            | err es =>
                have hf' : insertFieldNC (n + 1) p left f excl = (left', .err es) := by
                  rw [ihIns p left f excl (by rw [hf]; simp), hf]
                simp only [mergeFieldsGoNC, hf] at h ⊢
                simp only [hf']
                exact ihMgo p left' (errs ++ es) rest excl h
      · intro p fields field pe h
        rcases hscan : insertScanNC n p fields field
            (field.get_response_key p.schema) pe [] with sres
        cases sres with
        | scanStuck =>
            simp only [insertFieldNC, hscan] at h
            exact absurd rfl h
        | scanDone errs =>
            have hscan' : insertScanNC (n + 1) p fields field
                (field.get_response_key p.schema) pe [] = .scanDone errs := by
              rw [ihScan p fields field _ pe [] (by rw [hscan]; simp), hscan]
            simp only [insertFieldNC, hscan, hscan']
        | scanReturn r0 =>
            have hscan' : insertScanNC (n + 1) p fields field
                (field.get_response_key p.schema) pe [] = .scanReturn r0 := by
              rw [ihScan p fields field _ pe [] (by rw [hscan]; simp), hscan]
            simp only [insertFieldNC, hscan, hscan']
      · intro p fields field k pe errs h
        cases fields with
        | nil => rfl
        | cons e rest =>
            by_cases hc1 : (k != e.get_response_key p.schema) = true
            · simp only [insertScanNC, hc1, if_true] at h ⊢
              exact ihScan p rest field k pe errs h
            · simp only [insertScanNC, hc1] at h ⊢
              by_cases hc2 : Field.valEq field e = true
              · simp only [hc2, if_true] at h ⊢
                simp
              · simp only [hc2] at h ⊢
                cases e with
                | linkedField l =>
                    cases field with
                    | linkedField r =>
                        rcases hl : flattenLinkedFieldNC n p l with rl
                        cases rl with
                        | stuck =>
                            simp only [hl] at h
                            exact absurd rfl h
                        | err es =>
                            have hl' : flattenLinkedFieldNC (n + 1) p l = .err es := by
                              rw [ihLF p l (by rw [hl]; simp), hl]
                            simp only [hl, hl'] at h ⊢
                            simp
                        | ok lfs =>
                            have hl' : flattenLinkedFieldNC (n + 1) p l = .ok lfs := by
                              rw [ihLF p l (by rw [hl]; simp), hl]
                            simp only [hl, hl'] at h ⊢
                            rcases hr : flattenLinkedFieldNC n p r with rr
                            cases rr with
                            | stuck =>
                                simp only [hr] at h
                                exact absurd rfl h
                            | err es =>
                                have hr' : flattenLinkedFieldNC (n + 1) p r = .err es := by
                                  rw [ihLF p r (by rw [hr]; simp), hr]
                                simp only [hr, hr'] at h ⊢
                                simp
                            | ok rfs =>
                                have hr' : flattenLinkedFieldNC (n + 1) p r = .ok rfs := by
                                  rw [ihLF p r (by rw [hr]; simp), hr]
                                simp only [hr, hr'] at h ⊢
                                rcases hm : mergeFieldsNC n p lfs rfs
                                    (is_parent_fields_mutually_exclusive pe
                                      (Field.get_field_definition p.schema (.linkedField l))
                                      (Field.get_field_definition p.schema (.linkedField r)))
                                  with ⟨left', rm⟩
                                cases rm with
                                | stuck =>
                                    simp only [hm] at h
                                    exact absurd rfl h
                                | ok u =>
                                    have hm' := ihMg p lfs rfs _ (by rw [hm]; simp)
                                    rw [hm] at hm'
                                    simp only [hm, hm'] at h ⊢
                                    exact ihScan p rest (.linkedField r) k pe _ h
                                | err es =>
                                    have hm' := ihMg p lfs rfs _ (by rw [hm]; simp)
                                    rw [hm] at hm'
                                    simp only [hm, hm'] at h ⊢
                                    exact ihScan p rest (.linkedField r) k pe _ h
                    | scalarFeild r =>
                        simp only [] at h ⊢
                        exact ihScan p rest (.scalarFeild r) k pe _ h
                | scalarFeild l =>
                    cases field with
                    | linkedField r =>
                        exact ihScan p rest (.linkedField r) k pe _ h
                    | scalarFeild r =>
                        exact ihScan p rest (.scalarFeild r) k pe _ h

theorem ncMono_sels {n m : Nat} (p : Program) (sels : List Selection)
    (hnm : n ≤ m) (h : flattenSelectionsNC n p sels ≠ .stuck) :
    flattenSelectionsNC m p sels = flattenSelectionsNC n p sels := by
  induction hnm with
  | refl => rfl
  | @step mm _ ih =>
      have hmm : flattenSelectionsNC mm p sels ≠ .stuck := by rw [ih]; exact h
      rw [(ncStep mm).1 p sels hmm, ih]

theorem ncMono_go {n m : Nat} (p : Program) (fields : Fields)
    (errs : List Diagnostic) (sels : List Selection) (hnm : n ≤ m)
    (h : flattenSelectionsGoNC n p fields errs sels ≠ .stuck) :
    flattenSelectionsGoNC m p fields errs sels
      = flattenSelectionsGoNC n p fields errs sels := by
  induction hnm with
  | refl => rfl
  | @step mm _ ih =>
      have hmm : flattenSelectionsGoNC mm p fields errs sels ≠ .stuck := by
        rw [ih]; exact h
      rw [(ncStep mm).2.1 p fields errs sels hmm, ih]

theorem ncMono_sel {n m : Nat} (p : Program) (fields : Fields) (s : Selection)
    (hnm : n ≤ m) (h : (flattenSelectionNC n p fields s).2 ≠ .stuck) :
    flattenSelectionNC m p fields s = flattenSelectionNC n p fields s := by
  induction hnm with
  | refl => rfl
  | @step mm _ ih =>
      have hmm : (flattenSelectionNC mm p fields s).2 ≠ .stuck := by
        rw [ih]; exact h
      rw [(ncStep mm).2.2.1 p fields s hmm, ih]

theorem ncMono_collect {n m : Nat} (p : Program) (frag : FragmentDefinition)
    (hnm : n ≤ m) (h : collectFragmentNC n p frag ≠ .stuck) :
    collectFragmentNC m p frag = collectFragmentNC n p frag := by
  induction hnm with
  | refl => rfl
  | @step mm _ ih =>
      have hmm : collectFragmentNC mm p frag ≠ .stuck := by rw [ih]; exact h
      rw [(ncStep mm).2.2.2.1 p frag hmm, ih]

theorem ncMono_linked {n m : Nat} (p : Program) (lf : LinkedField)
    (hnm : n ≤ m) (h : flattenLinkedFieldNC n p lf ≠ .stuck) :
    flattenLinkedFieldNC m p lf = flattenLinkedFieldNC n p lf := by
  induction hnm with
  | refl => rfl
  | @step mm _ ih =>
      have hmm : flattenLinkedFieldNC mm p lf ≠ .stuck := by rw [ih]; exact h
      rw [(ncStep mm).2.2.2.2.1 p lf hmm, ih]

theorem ncMono_merge {n m : Nat} (p : Program) (left right : Fields)
    (excl : Bool) (hnm : n ≤ m)
    (h : (mergeFieldsNC n p left right excl).2 ≠ .stuck) :
    mergeFieldsNC m p left right excl = mergeFieldsNC n p left right excl := by
  induction hnm with
  | refl => rfl
  | @step mm _ ih =>
      have hmm : (mergeFieldsNC mm p left right excl).2 ≠ .stuck := by
        rw [ih]; exact h
      rw [(ncStep mm).2.2.2.2.2.1 p left right excl hmm, ih]

theorem ncMono_mergeGo {n m : Nat} (p : Program) (left : Fields)
    (errs : List Diagnostic) (right : Fields) (excl : Bool) (hnm : n ≤ m)
    (h : (mergeFieldsGoNC n p left errs right excl).2 ≠ .stuck) :
    mergeFieldsGoNC m p left errs right excl
      = mergeFieldsGoNC n p left errs right excl := by
  induction hnm with
  | refl => rfl
  | @step mm _ ih =>
      have hmm : (mergeFieldsGoNC mm p left errs right excl).2 ≠ .stuck := by
        rw [ih]; exact h
      rw [(ncStep mm).2.2.2.2.2.2.1 p left errs right excl hmm, ih]

theorem ncMono_insert {n m : Nat} (p : Program) (fields : Fields)
    (field : Field) (pe : Bool) (hnm : n ≤ m)
    (h : (insertFieldNC n p fields field pe).2 ≠ .stuck) :
    insertFieldNC m p fields field pe = insertFieldNC n p fields field pe := by
  induction hnm with
  | refl => rfl
  | @step mm _ ih =>
      have hmm : (insertFieldNC mm p fields field pe).2 ≠ .stuck := by
        rw [ih]; exact h
      rw [(ncStep mm).2.2.2.2.2.2.2.1 p fields field pe hmm, ih]

theorem ncMono_scan {n m : Nat} (p : Program) (fields : Fields) (field : Field)
    (k : Nat) (pe : Bool) (errs : List Diagnostic) (hnm : n ≤ m)
    (h : insertScanNC n p fields field k pe errs ≠ .scanStuck) :
    insertScanNC m p fields field k pe errs
      = insertScanNC n p fields field k pe errs := by
  induction hnm with
  | refl => rfl
  | @step mm _ ih =>
      have hmm : insertScanNC mm p fields field k pe errs ≠ .scanStuck := by
        rw [ih]; exact h
      rw [(ncStep mm).2.2.2.2.2.2.2.2 p fields field k pe errs hmm, ih]

/-- Determinism across fuels: two non-stuck cache-free flattenings of the
same selections agree. -/
theorem ncDet_sels {n m : Nat} {p : Program} {sels : List Selection}
    {r1 r2 : VRes Fields} (h1 : flattenSelectionsNC n p sels = r1)
    (h2 : flattenSelectionsNC m p sels = r2)
    (hr1 : r1 ≠ .stuck) (hr2 : r2 ≠ .stuck) : r1 = r2 := by
  rcases Nat.le_total n m with hle | hle
  · rw [← h1, ← h2, ncMono_sels p sels hle (by rw [h1]; exact hr1)]
  · rw [← h1, ← h2, ncMono_sels p sels hle (by rw [h2]; exact hr2)]

/-! ### Cache simulation

Under cache coherence and well-formedness, the cached validator computes the
same (non-stuck) results as the cache-free flattener, and it preserves
coherence — the backbone of both "caching does not alter diagnostics" and
the cached-list invariance claims. -/

theorem FieldsWF.push {env : Env} {fl : Fields} {f : Field}
    (h : FieldsWF env fl) (hf : FieldWF env f) : FieldsWF env (fl ++ [f]) := by
  intro g hg
  rcases List.mem_append.1 hg with hg | hg
  · exact h g hg
  · rcases List.mem_singleton.1 hg with rfl
    exact hf

theorem Coh.consFrag {p : Program} {env : Env} {σ : Caches} (h : Coh p env σ)
    {name : Nat} {fl : Fields} {fd : FragmentDefinition}
    (hfd : p.fragments.lookup name = some fd)
    (hm : ∃ m, flattenSelectionsNC m p fd.selections = .ok fl)
    (hwf : FieldsWF env fl) :
    Coh p env { σ with fragmentCache := (name, fl) :: σ.fragmentCache } := by
  refine ⟨?_, h.fld⟩
  intro name' fl' hlk
  by_cases hbe : (name' == name) = true
  · have hn : name' = name := by simpa using hbe
    subst hn
    have hfl : fl' = fl := by
      have := hlk
      simp [List.lookup, hbe] at this
      exact this.symm
    subst hfl
    exact ⟨fd, hfd, hm, hwf⟩
  · have hlk' : σ.fragmentCache.lookup name' = some fl' := by
      simpa [List.lookup, hbe] using hlk
    exact h.frag name' fl' hlk'

theorem Coh.consFld {p : Program} {env : Env} {σ : Caches} (h : Coh p env σ)
    {i : Nat} {fl : Fields} {sels : List Selection}
    (henv : env i = some sels) (hwfs : SelsWF env sels)
    (hm : ∃ m, flattenSelectionsNC m p sels = .ok fl)
    (hwf : FieldsWF env fl) :
    Coh p env { σ with fieldsCache := (i, fl) :: σ.fieldsCache } := by
  refine ⟨h.frag, ?_⟩
  intro i' fl' hlk
  by_cases hbe : (i' == i) = true
  · have hn : i' = i := by simpa using hbe
    subst hn
    have hfl : fl' = fl := by
      have := hlk
      simp [List.lookup, hbe] at this
      exact this.symm
    subst hfl
    exact ⟨sels, henv, hwfs, hm, hwf⟩
  · have hlk' : σ.fieldsCache.lookup i' = some fl' := by
      simpa [List.lookup, hbe] using hlk
    exact h.fld i' fl' hlk'

theorem cacheSim : ∀ n : Nat,
    (∀ (p : Program) (env : Env) (σ : Caches) (sels : List Selection)
      (σ' : Caches) (r : VRes Fields),
      Coh p env σ → ProgramWF p env → SelsWF env sels →
      validateSelections n p σ sels = (σ', r) →
      Coh p env σ' ∧ (∀ fl, r = .ok fl → FieldsWF env fl) ∧
        (r ≠ .stuck → ∃ m, flattenSelectionsNC m p sels = r)) ∧
    (∀ (p : Program) (env : Env) (σ : Caches) (fields : Fields)
      (errs : List Diagnostic) (sels : List Selection) (σ' : Caches)
      (r : VRes Fields),
      Coh p env σ → ProgramWF p env → SelsWF env sels → FieldsWF env fields →
      validateSelectionsGo n p σ fields errs sels = (σ', r) →
      Coh p env σ' ∧ (∀ fl, r = .ok fl → FieldsWF env fl) ∧
        (r ≠ .stuck → ∃ m, flattenSelectionsGoNC m p fields errs sels = r)) ∧
    (∀ (p : Program) (env : Env) (σ : Caches) (fields : Fields) (s : Selection)
      (σ' : Caches) (fields' : Fields) (r : VRes Unit),
      Coh p env σ → ProgramWF p env → SelWF env s → FieldsWF env fields →
      validateSelection n p σ fields s = (σ', fields', r) →
      Coh p env σ' ∧ (r ≠ .stuck → FieldsWF env fields' ∧
        ∃ m, flattenSelectionNC m p fields s = (fields', r))) ∧
    (∀ (p : Program) (env : Env) (σ : Caches) (frag : FragmentDefinition)
      (σ' : Caches) (r : VRes Fields),
      Coh p env σ → ProgramWF p env →
      p.fragments.lookup frag.name = some frag →
      validateAndCollectFragment n p σ frag = (σ', r) →
      Coh p env σ' ∧ (∀ fl, r = .ok fl → FieldsWF env fl) ∧
        (r ≠ .stuck → ∃ m, collectFragmentNC m p frag = r)) ∧
    (∀ (p : Program) (env : Env) (σ : Caches) (lf : LinkedField) (σ' : Caches)
      (r : VRes Fields),
      Coh p env σ → ProgramWF p env →
      env lf.id = some lf.selections → SelsWF env lf.selections →
      validateLinkedFieldSelections n p σ lf = (σ', r) →
      Coh p env σ' ∧ (∀ fl, r = .ok fl → FieldsWF env fl) ∧
        (r ≠ .stuck → ∃ m, flattenLinkedFieldNC m p lf = r)) ∧
    (∀ (p : Program) (env : Env) (σ : Caches) (left right : Fields)
      (excl : Bool) (σ' : Caches) (left' : Fields) (r : VRes Unit),
      Coh p env σ → ProgramWF p env → FieldsWF env left → FieldsWF env right →
      validateAndMergeFields n p σ left right excl = (σ', left', r) →
      Coh p env σ' ∧ (r ≠ .stuck → FieldsWF env left' ∧
        ∃ m, mergeFieldsNC m p left right excl = (left', r))) ∧
    (∀ (p : Program) (env : Env) (σ : Caches) (left : Fields)
      (errs : List Diagnostic) (right : Fields) (excl : Bool) (σ' : Caches)
      (left' : Fields) (r : VRes Unit),
      Coh p env σ → ProgramWF p env → FieldsWF env left → FieldsWF env right →
      validateAndMergeFieldsGo n p σ left errs right excl = (σ', left', r) →
      Coh p env σ' ∧ (r ≠ .stuck → FieldsWF env left' ∧
        ∃ m, mergeFieldsGoNC m p left errs right excl = (left', r))) ∧
    (∀ (p : Program) (env : Env) (σ : Caches) (fields : Fields) (field : Field)
      (pe : Bool) (σ' : Caches) (fs' : Fields) (r : VRes Unit),
      Coh p env σ → ProgramWF p env → FieldsWF env fields → FieldWF env field →
      validateAndInsertFieldSelection n p σ fields field pe = (σ', fs', r) →
      Coh p env σ' ∧ (r ≠ .stuck → FieldsWF env fs' ∧
        ∃ m, insertFieldNC m p fields field pe = (fs', r))) ∧
    (∀ (p : Program) (env : Env) (σ : Caches) (fields : Fields) (field : Field)
      (k : Nat) (pe : Bool) (errs : List Diagnostic) (σ' : Caches)
      (sres : ScanRes),
      Coh p env σ → ProgramWF p env → FieldsWF env fields → FieldWF env field →
      insertScan n p σ fields field k pe errs = (σ', sres) →
      Coh p env σ' ∧ (sres ≠ .scanStuck →
        ∃ m, insertScanNC m p fields field k pe errs = sres)) := by
  intro n
  induction n with
  | zero =>
      refine ⟨?_, ?_, ?_, ?_, ?_, ?_, ?_, ?_, ?_⟩
      · intro p env σ sels σ' r hcoh _ _ h
        obtain ⟨rfl, rfl⟩ : σ = σ' ∧ (VRes.stuck : VRes Fields) = r := by
          simpa [validateSelections] using h
        exact ⟨hcoh, (fun fl hfl => nomatch hfl), (fun hc => absurd rfl hc)⟩
      · intro p env σ fields errs sels σ' r hcoh _ _ _ h
        obtain ⟨rfl, rfl⟩ : σ = σ' ∧ (VRes.stuck : VRes Fields) = r := by
          simpa [validateSelectionsGo] using h
        exact ⟨hcoh, (fun fl hfl => nomatch hfl), (fun hc => absurd rfl hc)⟩
      · intro p env σ fields s σ' fields' r hcoh _ _ _ h
        obtain ⟨rfl, rfl, rfl⟩ :
            σ = σ' ∧ fields = fields' ∧ (VRes.stuck : VRes Unit) = r := by
          simpa [validateSelection] using h
        exact ⟨hcoh, (fun hc => absurd rfl hc)⟩
      · intro p env σ frag σ' r hcoh _ _ h
        obtain ⟨rfl, rfl⟩ : σ = σ' ∧ (VRes.stuck : VRes Fields) = r := by
          simpa [validateAndCollectFragment] using h
        exact ⟨hcoh, (fun fl hfl => nomatch hfl), (fun hc => absurd rfl hc)⟩
      · intro p env σ lf σ' r hcoh _ _ _ h
        obtain ⟨rfl, rfl⟩ : σ = σ' ∧ (VRes.stuck : VRes Fields) = r := by
          simpa [validateLinkedFieldSelections] using h
        exact ⟨hcoh, (fun fl hfl => nomatch hfl), (fun hc => absurd rfl hc)⟩
      · intro p env σ left right excl σ' left' r hcoh _ _ _ h
        obtain ⟨rfl, rfl, rfl⟩ :
            σ = σ' ∧ left = left' ∧ (VRes.stuck : VRes Unit) = r := by
          simpa [validateAndMergeFields] using h
        exact ⟨hcoh, (fun hc => absurd rfl hc)⟩
      · intro p env σ left errs right excl σ' left' r hcoh _ _ _ h
        obtain ⟨rfl, rfl, rfl⟩ :
            σ = σ' ∧ left = left' ∧ (VRes.stuck : VRes Unit) = r := by
          simpa [validateAndMergeFieldsGo] using h
        exact ⟨hcoh, (fun hc => absurd rfl hc)⟩
      · intro p env σ fields field pe σ' fs' r hcoh _ _ _ h
        obtain ⟨rfl, rfl, rfl⟩ :
            σ = σ' ∧ fields = fs' ∧ (VRes.stuck : VRes Unit) = r := by
          simpa [validateAndInsertFieldSelection] using h
        exact ⟨hcoh, (fun hc => absurd rfl hc)⟩
      · intro p env σ fields field k pe errs σ' sres hcoh _ _ _ h
        obtain ⟨rfl, rfl⟩ : σ = σ' ∧ ScanRes.scanStuck = sres := by
          simpa [insertScan] using h
        exact ⟨hcoh, (fun hc => absurd rfl hc)⟩
  | succ n ih =>
      obtain ⟨ihSels, ihGo, ihSel, ihCol, ihLF, ihMg, ihMgo, ihIns, ihScan⟩ := ih
      refine ⟨?_, ?_, ?_, ?_, ?_, ?_, ?_, ?_, ?_⟩
      -- validateSelections
      · intro p env σ sels σ' r hcoh hpwf hwfs h
        have h' : validateSelectionsGo n p σ [] [] sels = (σ', r) := h
        obtain ⟨hc1, hc2, hc3⟩ := ihGo p env σ [] [] sels σ' r hcoh hpwf hwfs
          (fun f hf => nomatch hf) h'
        refine ⟨hc1, hc2, fun hne => ?_⟩
        obtain ⟨m, hm⟩ := hc3 hne
        exact ⟨m + 1, hm⟩
      -- validateSelectionsGo
      · intro p env σ fields errs sels σ' r hcoh hpwf hwfs hwff h
        cases sels with
        | nil =>
            obtain ⟨rfl, rfl⟩ :
                σ = σ' ∧ (if errs.isEmpty then VRes.ok fields else .err errs) = r := by
              simpa [validateSelectionsGo] using h
            refine ⟨hcoh, ?_, fun hne => ⟨1, rfl⟩⟩
            intro fl hfl
            by_cases he : errs.isEmpty <;> simp [he] at hfl
            subst hfl
            exact hwff
        | cons s rest =>
            rcases hs : validateSelection n p σ fields s with ⟨σ1, fields1, r1⟩
            obtain ⟨hcoh1, hrest1⟩ := ihSel p env σ fields s σ1 fields1 r1 hcoh hpwf
              (hwfs s (List.mem_cons_self _ _)) hwff hs
            have hwfs' : SelsWF env rest := fun t ht => hwfs t (List.mem_cons_of_mem _ ht)
            cases r1 with
            | stuck =>
                obtain ⟨rfl, rfl⟩ : σ1 = σ' ∧ (VRes.stuck : VRes Fields) = r := by
                  simpa [validateSelectionsGo, hs] using h
                exact ⟨hcoh1, (fun fl hfl => nomatch hfl), (fun hc => absurd rfl hc)⟩
            | ok u =>
                obtain ⟨hwf1, m1, hm1⟩ := hrest1 (by simp)
                have h' : validateSelectionsGo n p σ1 fields1 errs rest = (σ', r) := by
                  simpa [validateSelectionsGo, hs] using h
                obtain ⟨hcoh2, hwf2, hnc2⟩ := ihGo p env σ1 fields1 errs rest σ' r
                  hcoh1 hpwf hwfs' hwf1 h'
                refine ⟨hcoh2, hwf2, fun hne => ?_⟩
                obtain ⟨m2, hm2⟩ := hnc2 hne
                refine ⟨max m1 m2 + 1, ?_⟩
                have e1 : flattenSelectionNC (max m1 m2) p fields s = (fields1, .ok u) := by
                  rw [ncMono_sel p fields s (Nat.le_max_left m1 m2) (by rw [hm1]; simp),
                    hm1]
                have e2 : flattenSelectionsGoNC (max m1 m2) p fields1 errs rest = r := by
                  rw [ncMono_go p fields1 errs rest (Nat.le_max_right m1 m2)
                    (by rw [hm2]; exact hne), hm2]
                simp only [flattenSelectionsGoNC, e1, e2]
            | err es =>
                obtain ⟨hwf1, m1, hm1⟩ := hrest1 (by simp)
                have h' : validateSelectionsGo n p σ1 fields1 (errs ++ es) rest = (σ', r) := by
                  simpa [validateSelectionsGo, hs] using h
                obtain ⟨hcoh2, hwf2, hnc2⟩ := ihGo p env σ1 fields1 (errs ++ es) rest σ' r
                  hcoh1 hpwf hwfs' hwf1 h'
                refine ⟨hcoh2, hwf2, fun hne => ?_⟩
                obtain ⟨m2, hm2⟩ := hnc2 hne
                refine ⟨max m1 m2 + 1, ?_⟩
                have e1 : flattenSelectionNC (max m1 m2) p fields s = (fields1, .err es) := by
                  rw [ncMono_sel p fields s (Nat.le_max_left m1 m2) (by rw [hm1]; simp),
                    hm1]
                have e2 : flattenSelectionsGoNC (max m1 m2) p fields1 (errs ++ es) rest = r := by
                  rw [ncMono_go p fields1 (errs ++ es) rest (Nat.le_max_right m1 m2)
                    (by rw [hm2]; exact hne), hm2]
                simp only [flattenSelectionsGoNC, e1, e2]
      -- validateSelection
      · intro p env σ fields s σ' fields' r hcoh hpwf hwf hwff h
        cases s with
        | linkedField a d loc i sels =>
            obtain ⟨henv, hsels⟩ :
                env i = some sels ∧ SelsWF env sels := by
              cases hwf with
              | linkedField h1 h2 => exact ⟨h1, h2⟩
            rcases hlf : validateLinkedFieldSelections n p σ ⟨a, d, loc, i, sels⟩
              with ⟨σ1, rl⟩
            obtain ⟨hcoh1, hwfl, hncl⟩ := ihLF p env σ ⟨a, d, loc, i, sels⟩ σ1 rl
              hcoh hpwf henv hsels hlf
            cases rl with
            | stuck =>
                obtain ⟨rfl, rfl, rfl⟩ :
                    σ1 = σ' ∧ fields = fields' ∧ (VRes.stuck : VRes Unit) = r := by
                  simpa [validateSelection, hlf] using h
                exact ⟨hcoh1, (fun hc => absurd rfl hc)⟩
            | err es =>
                obtain ⟨rfl, rfl, rfl⟩ :
                    σ1 = σ' ∧ fields = fields' ∧ (VRes.err es : VRes Unit) = r := by
                  simpa [validateSelection, hlf] using h
                obtain ⟨m1, hm1⟩ := hncl (by simp)
                refine ⟨hcoh1, fun _ => ⟨hwff, m1 + 1, ?_⟩⟩
                simp only [flattenSelectionNC, hm1]
            | ok u =>
                obtain ⟨m1, hm1⟩ := hncl (by simp)
                have h' : validateAndInsertFieldSelection n p σ1 fields
                    (.linkedField ⟨a, d, loc, i, sels⟩) false = (σ', fields', r) := by
                  simpa [validateSelection, hlf] using h
                obtain ⟨hcoh2, hrest2⟩ := ihIns p env σ1 fields
                  (.linkedField ⟨a, d, loc, i, sels⟩) false σ' fields' r hcoh1 hpwf
                  hwff ⟨henv, hsels⟩ h'
                refine ⟨hcoh2, fun hne => ?_⟩
                obtain ⟨hwf2, m2, hm2⟩ := hrest2 hne
                refine ⟨hwf2, max m1 m2 + 1, ?_⟩
                have e1 : flattenLinkedFieldNC (max m1 m2) p ⟨a, d, loc, i, sels⟩
                    = .ok u := by
                  rw [ncMono_linked p _ (Nat.le_max_left m1 m2) (by rw [hm1]; simp), hm1]
                have e2 : insertFieldNC (max m1 m2) p fields
                    (.linkedField ⟨a, d, loc, i, sels⟩) false = (fields', r) := by
                  rw [ncMono_insert p fields _ false (Nat.le_max_right m1 m2)
                    (by rw [hm2]; exact hne), hm2]
                simp only [flattenSelectionNC, e1, e2]
        | scalarField sf =>
            have h' : validateAndInsertFieldSelection n p σ fields
                (.scalarFeild sf) false = (σ', fields', r) := h
            obtain ⟨hcoh2, hrest2⟩ := ihIns p env σ fields (.scalarFeild sf) false
              σ' fields' r hcoh hpwf hwff trivial h'
            refine ⟨hcoh2, fun hne => ?_⟩
            obtain ⟨hwf2, m2, hm2⟩ := hrest2 hne
            exact ⟨hwf2, m2 + 1, hm2⟩
        | condition sels =>
            have hsels : SelsWF env sels := by
              cases hwf with
              | condition h1 => exact h1
            rcases hflat : validateSelections n p σ sels with ⟨σ1, rl⟩
            obtain ⟨hcoh1, hwfl, hncl⟩ := ihSels p env σ sels σ1 rl hcoh hpwf hsels hflat
            cases rl with
            | stuck =>
                obtain ⟨rfl, rfl, rfl⟩ :
                    σ1 = σ' ∧ fields = fields' ∧ (VRes.stuck : VRes Unit) = r := by
                  simpa [validateSelection, hflat] using h
                exact ⟨hcoh1, (fun hc => absurd rfl hc)⟩
            | err es =>
                obtain ⟨rfl, rfl, rfl⟩ :
                    σ1 = σ' ∧ fields = fields' ∧ (VRes.err es : VRes Unit) = r := by
                  simpa [validateSelection, hflat] using h
                obtain ⟨m1, hm1⟩ := hncl (by simp)
                refine ⟨hcoh1, fun _ => ⟨hwff, m1 + 1, ?_⟩⟩
                simp only [flattenSelectionNC, hm1]
            | ok newFields =>
                obtain ⟨m1, hm1⟩ := hncl (by simp)
                have h' : validateAndMergeFields n p σ1 fields newFields false
                    = (σ', fields', r) := by
                  simpa [validateSelection, hflat] using h
                obtain ⟨hcoh2, hrest2⟩ := ihMg p env σ1 fields newFields false
                  σ' fields' r hcoh1 hpwf hwff (hwfl newFields rfl) h'
                refine ⟨hcoh2, fun hne => ?_⟩
                obtain ⟨hwf2, m2, hm2⟩ := hrest2 hne
                refine ⟨hwf2, max m1 m2 + 1, ?_⟩
                have e1 : flattenSelectionsNC (max m1 m2) p sels = .ok newFields := by
                  rw [ncMono_sels p sels (Nat.le_max_left m1 m2) (by rw [hm1]; simp), hm1]
                have e2 : mergeFieldsNC (max m1 m2) p fields newFields false
                    = (fields', r) := by
                  rw [ncMono_merge p fields newFields false (Nat.le_max_right m1 m2)
                    (by rw [hm2]; exact hne), hm2]
                simp only [flattenSelectionNC, e1, e2]
        | inlineFragment sels =>
            have hsels : SelsWF env sels := by
              cases hwf with
              | inlineFragment h1 => exact h1
            rcases hflat : validateSelections n p σ sels with ⟨σ1, rl⟩
            obtain ⟨hcoh1, hwfl, hncl⟩ := ihSels p env σ sels σ1 rl hcoh hpwf hsels hflat
            cases rl with
            | stuck =>
                obtain ⟨rfl, rfl, rfl⟩ :
                    σ1 = σ' ∧ fields = fields' ∧ (VRes.stuck : VRes Unit) = r := by
                  simpa [validateSelection, hflat] using h
                exact ⟨hcoh1, (fun hc => absurd rfl hc)⟩
            | err es =>
                obtain ⟨rfl, rfl, rfl⟩ :
                    σ1 = σ' ∧ fields = fields' ∧ (VRes.err es : VRes Unit) = r := by
                  simpa [validateSelection, hflat] using h
                obtain ⟨m1, hm1⟩ := hncl (by simp)
                refine ⟨hcoh1, fun _ => ⟨hwff, m1 + 1, ?_⟩⟩
                simp only [flattenSelectionNC, hm1]
            | ok newFields =>
                obtain ⟨m1, hm1⟩ := hncl (by simp)
                have h' : validateAndMergeFields n p σ1 fields newFields false
                    = (σ', fields', r) := by
                  simpa [validateSelection, hflat] using h
                obtain ⟨hcoh2, hrest2⟩ := ihMg p env σ1 fields newFields false
                  σ' fields' r hcoh1 hpwf hwff (hwfl newFields rfl) h'
                refine ⟨hcoh2, fun hne => ?_⟩
                obtain ⟨hwf2, m2, hm2⟩ := hrest2 hne
                refine ⟨hwf2, max m1 m2 + 1, ?_⟩
                have e1 : flattenSelectionsNC (max m1 m2) p sels = .ok newFields := by
                  rw [ncMono_sels p sels (Nat.le_max_left m1 m2) (by rw [hm1]; simp), hm1]
                have e2 : mergeFieldsNC (max m1 m2) p fields newFields false
                    = (fields', r) := by
                  rw [ncMono_merge p fields newFields false (Nat.le_max_right m1 m2)
                    (by rw [hm2]; exact hne), hm2]
                simp only [flattenSelectionNC, e1, e2]
        | fragmentSpread name =>
            rcases hfr : p.fragments.lookup name with _ | frag
            · obtain ⟨rfl, rfl, rfl⟩ :
                  σ = σ' ∧ fields = fields' ∧ (VRes.stuck : VRes Unit) = r := by
                simpa [validateSelection, hfr] using h
              exact ⟨hcoh, (fun hc => absurd rfl hc)⟩
            · obtain ⟨hname, hsels⟩ := hpwf.frags name frag hfr
              have hfr' : p.fragments.lookup frag.name = some frag := by
                rw [hname]; exact hfr
              rcases hcol : validateAndCollectFragment n p σ frag with ⟨σ1, rl⟩
              obtain ⟨hcoh1, hwfl, hncl⟩ := ihCol p env σ frag σ1 rl hcoh hpwf hfr' hcol
              cases rl with
              | stuck =>
                  obtain ⟨rfl, rfl, rfl⟩ :
                      σ1 = σ' ∧ fields = fields' ∧ (VRes.stuck : VRes Unit) = r := by
                    simpa [validateSelection, hfr, hcol] using h
                  exact ⟨hcoh1, (fun hc => absurd rfl hc)⟩
              | err es =>
                  obtain ⟨rfl, rfl, rfl⟩ :
                      σ1 = σ' ∧ fields = fields' ∧ (VRes.err es : VRes Unit) = r := by
                    simpa [validateSelection, hfr, hcol] using h
                  obtain ⟨m1, hm1⟩ := hncl (by simp)
                  refine ⟨hcoh1, fun _ => ⟨hwff, m1 + 1, ?_⟩⟩
                  simp only [flattenSelectionNC, hfr, hm1]
              | ok newFields =>
                  obtain ⟨m1, hm1⟩ := hncl (by simp)
                  have h' : validateAndMergeFields n p σ1 fields newFields false
                      = (σ', fields', r) := by
                    simpa [validateSelection, hfr, hcol] using h
                  obtain ⟨hcoh2, hrest2⟩ := ihMg p env σ1 fields newFields false
                    σ' fields' r hcoh1 hpwf hwff (hwfl newFields rfl) h'
                  refine ⟨hcoh2, fun hne => ?_⟩
                  obtain ⟨hwf2, m2, hm2⟩ := hrest2 hne
                  refine ⟨hwf2, max m1 m2 + 1, ?_⟩
                  have e1 : collectFragmentNC (max m1 m2) p frag = .ok newFields := by
                    rw [ncMono_collect p frag (Nat.le_max_left m1 m2)
                      (by rw [hm1]; simp), hm1]
                  have e2 : mergeFieldsNC (max m1 m2) p fields newFields false
                      = (fields', r) := by
                    rw [ncMono_merge p fields newFields false (Nat.le_max_right m1 m2)
                      (by rw [hm2]; exact hne), hm2]
                  simp only [flattenSelectionNC, hfr, e1, e2]
      -- validateAndCollectFragment
      · intro p env σ frag σ' r hcoh hpwf hfr h
        obtain ⟨hname, hsels⟩ := hpwf.frags frag.name frag hfr
        rcases hlk : σ.fragmentCache.lookup frag.name with _ | cached
        · rcases hflat : validateSelections n p σ frag.selections with ⟨σ1, rl⟩
          obtain ⟨hcoh1, hwfl, hncl⟩ := ihSels p env σ frag.selections σ1 rl
            hcoh hpwf hsels hflat
          cases rl with
          | stuck =>
              obtain ⟨rfl, rfl⟩ : σ1 = σ' ∧ (VRes.stuck : VRes Fields) = r := by
                simpa [validateAndCollectFragment, hlk, hflat] using h
              exact ⟨hcoh1, (fun fl hfl => nomatch hfl), (fun hc => absurd rfl hc)⟩
          | err es =>
              obtain ⟨rfl, rfl⟩ : σ1 = σ' ∧ (VRes.err es : VRes Fields) = r := by
                simpa [validateAndCollectFragment, hlk, hflat] using h
              obtain ⟨m1, hm1⟩ := hncl (by simp)
              refine ⟨hcoh1, (fun fl hfl => nomatch hfl), fun _ => ⟨m1 + 1, ?_⟩⟩
              simpa [collectFragmentNC] using hm1
          | ok fl =>
              obtain ⟨m1, hm1⟩ := hncl (by simp)
              obtain ⟨rfl, rfl⟩ :
                  { σ1 with fragmentCache := (frag.name, fl) :: σ1.fragmentCache } = σ'
                    ∧ (VRes.ok fl : VRes Fields) = r := by
                simpa [validateAndCollectFragment, hlk, hflat] using h
              refine ⟨hcoh1.consFrag hfr ⟨m1, hm1⟩ (hwfl fl rfl), ?_, fun _ => ⟨m1 + 1, ?_⟩⟩
              · intro fl' hfl'
                obtain rfl : fl = fl' := by simpa using hfl'
                exact hwfl fl rfl
              · simpa [collectFragmentNC] using hm1
        · obtain ⟨rfl, rfl⟩ : σ = σ' ∧ (VRes.ok cached : VRes Fields) = r := by
            simpa [validateAndCollectFragment, hlk] using h
          obtain ⟨fd, hfd, ⟨m1, hm1⟩, hwfc⟩ := hcoh.frag frag.name cached hlk
          obtain rfl : fd = frag := by
            have := hfd.symm.trans hfr
            simpa using this
          refine ⟨hcoh, ?_, fun _ => ⟨m1 + 1, ?_⟩⟩
          · intro fl' hfl'
            obtain rfl : cached = fl' := by simpa using hfl'
            exact hwfc
          · simpa [collectFragmentNC] using hm1
      -- validateLinkedFieldSelections
      · intro p env σ lf σ' r hcoh hpwf henv hsels h
        rcases hlk : σ.fieldsCache.lookup lf.id with _ | cached
        · rcases hflat : validateSelections n p σ lf.selections with ⟨σ1, rl⟩
          obtain ⟨hcoh1, hwfl, hncl⟩ := ihSels p env σ lf.selections σ1 rl
            hcoh hpwf hsels hflat
          cases rl with
          | stuck =>
              obtain ⟨rfl, rfl⟩ : σ1 = σ' ∧ (VRes.stuck : VRes Fields) = r := by
                simpa [validateLinkedFieldSelections, hlk, hflat] using h
              exact ⟨hcoh1, (fun fl hfl => nomatch hfl), (fun hc => absurd rfl hc)⟩
          | err es =>
              obtain ⟨rfl, rfl⟩ : σ1 = σ' ∧ (VRes.err es : VRes Fields) = r := by
                simpa [validateLinkedFieldSelections, hlk, hflat] using h
              obtain ⟨m1, hm1⟩ := hncl (by simp)
              refine ⟨hcoh1, (fun fl hfl => nomatch hfl), fun _ => ⟨m1 + 1, ?_⟩⟩
              simpa [flattenLinkedFieldNC] using hm1
          | ok fl =>
              obtain ⟨m1, hm1⟩ := hncl (by simp)
              obtain ⟨rfl, rfl⟩ :
                  { σ1 with fieldsCache := (lf.id, fl) :: σ1.fieldsCache } = σ'
                    ∧ (VRes.ok fl : VRes Fields) = r := by
                simpa [validateLinkedFieldSelections, hlk, hflat] using h
              refine ⟨hcoh1.consFld henv hsels ⟨m1, hm1⟩ (hwfl fl rfl), ?_,
                fun _ => ⟨m1 + 1, ?_⟩⟩
              · intro fl' hfl'
                obtain rfl : fl = fl' := by simpa using hfl'
                exact hwfl fl rfl
              · simpa [flattenLinkedFieldNC] using hm1
        · obtain ⟨rfl, rfl⟩ : σ = σ' ∧ (VRes.ok cached : VRes Fields) = r := by
            simpa [validateLinkedFieldSelections, hlk] using h
          obtain ⟨sels0, henv0, hwfs0, ⟨m1, hm1⟩, hwfc⟩ := hcoh.fld lf.id cached hlk
          obtain rfl : sels0 = lf.selections := by
            have := henv0.symm.trans henv
            simpa using this
          refine ⟨hcoh, ?_, fun _ => ⟨m1 + 1, ?_⟩⟩
          · intro fl' hfl'
            obtain rfl : cached = fl' := by simpa using hfl'
            exact hwfc
          · simpa [flattenLinkedFieldNC] using hm1
      -- validateAndMergeFields
      · intro p env σ left right excl σ' left' r hcoh hpwf hwl hwr h
        have h' : validateAndMergeFieldsGo n p σ left [] right excl = (σ', left', r) := h
        obtain ⟨hcoh1, hrest1⟩ := ihMgo p env σ left [] right excl σ' left' r
          hcoh hpwf hwl hwr h'
        refine ⟨hcoh1, fun hne => ?_⟩
        obtain ⟨hwf1, m1, hm1⟩ := hrest1 hne
        exact ⟨hwf1, m1 + 1, hm1⟩
      -- validateAndMergeFieldsGo
      · intro p env σ left errs right excl σ' left' r hcoh hpwf hwl hwr h
        cases right with
        | nil =>
            obtain ⟨rfl, rfl, rfl⟩ :
                σ = σ' ∧ left = left'
                  ∧ (if errs.isEmpty then VRes.ok () else .err errs) = r := by
              simpa [validateAndMergeFieldsGo] using h
            exact ⟨hcoh, fun hne => ⟨hwl, 1, rfl⟩⟩
        | cons f rest =>
            rcases hf : validateAndInsertFieldSelection n p σ left f excl
              with ⟨σ1, left1, r1⟩
            obtain ⟨hcoh1, hrest1⟩ := ihIns p env σ left f excl σ1 left1 r1 hcoh hpwf
              hwl (hwr f (List.mem_cons_self _ _)) hf
            have hwr' : FieldsWF env rest := fun g hg => hwr g (List.mem_cons_of_mem _ hg)
            cases r1 with
            | stuck =>
                obtain ⟨rfl, rfl, rfl⟩ :
                    σ1 = σ' ∧ left1 = left' ∧ (VRes.stuck : VRes Unit) = r := by
                  simpa [validateAndMergeFieldsGo, hf] using h
                exact ⟨hcoh1, (fun hc => absurd rfl hc)⟩
            | ok u =>
                obtain ⟨hwf1, m1, hm1⟩ := hrest1 (by simp)
                have h' : validateAndMergeFieldsGo n p σ1 left1 errs rest excl
                    = (σ', left', r) := by
                  simpa [validateAndMergeFieldsGo, hf] using h
                obtain ⟨hcoh2, hrest2⟩ := ihMgo p env σ1 left1 errs rest excl σ' left' r
                  hcoh1 hpwf hwf1 hwr' h'
                refine ⟨hcoh2, fun hne => ?_⟩
                obtain ⟨hwf2, m2, hm2⟩ := hrest2 hne
                refine ⟨hwf2, max m1 m2 + 1, ?_⟩
                have e1 : insertFieldNC (max m1 m2) p left f excl = (left1, .ok u) := by
                  rw [ncMono_insert p left f excl (Nat.le_max_left m1 m2)
                    (by rw [hm1]; simp), hm1]
                have e2 : mergeFieldsGoNC (max m1 m2) p left1 errs rest excl
                    = (left', r) := by
                  rw [ncMono_mergeGo p left1 errs rest excl (Nat.le_max_right m1 m2)
                    (by rw [hm2]; exact hne), hm2]
                simp only [mergeFieldsGoNC, e1, e2]
            | err es =>
                obtain ⟨hwf1, m1, hm1⟩ := hrest1 (by simp)
                have h' : validateAndMergeFieldsGo n p σ1 left1 (errs ++ es) rest excl
                    = (σ', left', r) := by
                  simpa [validateAndMergeFieldsGo, hf] using h
                obtain ⟨hcoh2, hrest2⟩ := ihMgo p env σ1 left1 (errs ++ es) rest excl
                  σ' left' r hcoh1 hpwf hwf1 hwr' h'
                refine ⟨hcoh2, fun hne => ?_⟩
                obtain ⟨hwf2, m2, hm2⟩ := hrest2 hne
                refine ⟨hwf2, max m1 m2 + 1, ?_⟩
                have e1 : insertFieldNC (max m1 m2) p left f excl = (left1, .err es) := by
                  rw [ncMono_insert p left f excl (Nat.le_max_left m1 m2)
                    (by rw [hm1]; simp), hm1]
                have e2 : mergeFieldsGoNC (max m1 m2) p left1 (errs ++ es) rest excl
                    = (left', r) := by
                  rw [ncMono_mergeGo p left1 (errs ++ es) rest excl
                    (Nat.le_max_right m1 m2) (by rw [hm2]; exact hne), hm2]
                simp only [mergeFieldsGoNC, e1, e2]
      -- validateAndInsertFieldSelection
      · intro p env σ fields field pe σ' fs' r hcoh hpwf hwff hwf h
        rcases hscan : insertScan n p σ fields field
            (field.get_response_key p.schema) pe [] with ⟨σ1, sres⟩
        obtain ⟨hcoh1, hnc1⟩ := ihScan p env σ fields field
          (field.get_response_key p.schema) pe [] σ1 sres hcoh hpwf hwff hwf hscan
        cases sres with
        | scanStuck =>
            obtain ⟨rfl, rfl, rfl⟩ :
                σ1 = σ' ∧ fields = fs' ∧ (VRes.stuck : VRes Unit) = r := by
              simpa [validateAndInsertFieldSelection, hscan] using h
            exact ⟨hcoh1, (fun hc => absurd rfl hc)⟩
        | scanDone errs =>
            obtain ⟨m1, hm1⟩ := hnc1 (by simp)
            by_cases he : errs.isEmpty
            · obtain ⟨rfl, rfl, rfl⟩ :
                  σ1 = σ' ∧ fields ++ [field] = fs' ∧ (VRes.ok () : VRes Unit) = r := by
                simpa [validateAndInsertFieldSelection, hscan, he] using h
              refine ⟨hcoh1, fun _ => ⟨hwff.push hwf, m1 + 1, ?_⟩⟩
              simp [insertFieldNC, hm1, he]
            · obtain ⟨rfl, rfl, rfl⟩ :
                  σ1 = σ' ∧ fields = fs' ∧ (VRes.err errs : VRes Unit) = r := by
                simpa [validateAndInsertFieldSelection, hscan, he] using h
              refine ⟨hcoh1, fun _ => ⟨hwff, m1 + 1, ?_⟩⟩
              simp [insertFieldNC, hm1, he]
        | scanReturn r0 =>
            obtain ⟨m1, hm1⟩ := hnc1 (by simp)
            obtain ⟨rfl, rfl, rfl⟩ : σ1 = σ' ∧ fields = fs' ∧ r0 = r := by
              simpa [validateAndInsertFieldSelection, hscan] using h
            refine ⟨hcoh1, fun hne => ⟨hwff, m1 + 1, ?_⟩⟩
            simp [insertFieldNC, hm1]
      -- insertScan
      · intro p env σ fields field k pe errs σ' sres hcoh hpwf hwff hwf h
        cases fields with
        | nil =>
            obtain ⟨rfl, rfl⟩ : σ = σ' ∧ ScanRes.scanDone errs = sres := by
              simpa [insertScan] using h
            exact ⟨hcoh, fun _ => ⟨1, rfl⟩⟩
        | cons e rest =>
            have hwfe : FieldWF env e := hwff e (List.mem_cons_self _ _)
            have hwfrest : FieldsWF env rest :=
              fun g hg => hwff g (List.mem_cons_of_mem _ hg)
            by_cases hc1 : (k != e.get_response_key p.schema) = true
            · have h' : insertScan n p σ rest field k pe errs = (σ', sres) := by
                simpa [insertScan, hc1] using h
              obtain ⟨hcoh1, hnc1⟩ := ihScan p env σ rest field k pe errs σ' sres
                hcoh hpwf hwfrest hwf h'
              refine ⟨hcoh1, fun hne => ?_⟩
              obtain ⟨m1, hm1⟩ := hnc1 hne
              refine ⟨m1 + 1, ?_⟩
              simpa [insertScanNC, hc1] using hm1
            · by_cases hc2 : Field.valEq field e = true
              · obtain ⟨rfl, rfl⟩ :
                    σ = σ' ∧ ScanRes.scanReturn
                      (if errs.isEmpty then VRes.ok () else .err errs) = sres := by
                  simpa [insertScan, hc1, hc2] using h
                refine ⟨hcoh, fun _ => ⟨1, ?_⟩⟩
                simp [insertScanNC, hc1, hc2]
              · cases e with
                | linkedField l =>
                    cases field with
                    | linkedField rr =>
                        obtain ⟨henvl, hselsl⟩ : env l.id = some l.selections
                            ∧ SelsWF env l.selections := hwfe
                        have hwfcopy := hwf
                        obtain ⟨henvr, hselsr⟩ : env rr.id = some rr.selections
                            ∧ SelsWF env rr.selections := hwfcopy
                        rcases hl : validateLinkedFieldSelections n p σ l with ⟨σ1, rl⟩
                        obtain ⟨hcoh1, hwfl, hncl⟩ := ihLF p env σ l σ1 rl hcoh hpwf
                          henvl hselsl hl
                        cases rl with
                        | stuck =>
                            obtain ⟨rfl, rfl⟩ : σ1 = σ' ∧ ScanRes.scanStuck = sres := by
                              simpa [insertScan, hc1, hc2, hl] using h
                            exact ⟨hcoh1, (fun hc => absurd rfl hc)⟩
                        | err es =>
                            obtain ⟨rfl, rfl⟩ :
                                σ1 = σ' ∧ ScanRes.scanReturn (.err es) = sres := by
                              simpa [insertScan, hc1, hc2, hl] using h
                            obtain ⟨m1, hm1⟩ := hncl (by simp)
                            refine ⟨hcoh1, fun _ => ⟨m1 + 1, ?_⟩⟩
                            simp [insertScanNC, hc1, hc2, hm1]
                        | ok lfs =>
                            obtain ⟨m1, hm1⟩ := hncl (by simp)
                            rcases hr : validateLinkedFieldSelections n p σ1 rr
                              with ⟨σ2, rl2⟩
                            obtain ⟨hcoh2, hwfr, hncr⟩ := ihLF p env σ1 rr σ2 rl2 hcoh1
                              hpwf henvr hselsr hr
                            cases rl2 with
                            | stuck =>
                                obtain ⟨rfl, rfl⟩ :
                                    σ2 = σ' ∧ ScanRes.scanStuck = sres := by
                                  simpa [insertScan, hc1, hc2, hl, hr] using h
                                exact ⟨hcoh2, (fun hc => absurd rfl hc)⟩
                            | err es =>
                                obtain ⟨rfl, rfl⟩ :
                                    σ2 = σ' ∧ ScanRes.scanReturn (.err es) = sres := by
                                  simpa [insertScan, hc1, hc2, hl, hr] using h
                                obtain ⟨m2, hm2⟩ := hncr (by simp)
                                refine ⟨hcoh2, fun _ => ⟨max m1 m2 + 1, ?_⟩⟩
                                have e1 : flattenLinkedFieldNC (max m1 m2) p l
                                    = .ok lfs := by
                                  rw [ncMono_linked p l (Nat.le_max_left m1 m2)
                                    (by rw [hm1]; simp), hm1]
                                have e2 : flattenLinkedFieldNC (max m1 m2) p rr
                                    = .err es := by
                                  rw [ncMono_linked p rr (Nat.le_max_right m1 m2)
                                    (by rw [hm2]; simp), hm2]
                                simp [insertScanNC, hc1, hc2, e1, e2]
                            | ok rfs =>
                                obtain ⟨m2, hm2⟩ := hncr (by simp)
                                rcases hm : validateAndMergeFields n p σ2 lfs rfs
                                    (is_parent_fields_mutually_exclusive pe
                                      (Field.get_field_definition p.schema (.linkedField l))
                                      (Field.get_field_definition p.schema (.linkedField rr)))
                                  with ⟨σ3, left3, rm⟩
                                obtain ⟨hcoh3, hrest3⟩ := ihMg p env σ2 lfs rfs _
                                  σ3 left3 rm hcoh2 hpwf (hwfl lfs rfl) (hwfr rfs rfl) hm
                                cases rm with
                                | stuck =>
                                    obtain ⟨rfl, rfl⟩ :
                                        σ3 = σ' ∧ ScanRes.scanStuck = sres := by
                                      simpa [insertScan, hc1, hc2, hl, hr, hm] using h
                                    exact ⟨hcoh3, (fun hc => absurd rfl hc)⟩
                                | ok u =>
                                    obtain ⟨hwf3, m3, hm3⟩ := hrest3 (by simp)
                                    have h' : insertScan n p σ3 rest (.linkedField rr)
                                        k pe (if (!is_parent_fields_mutually_exclusive pe
                                            (Field.get_field_definition p.schema
                                              (.linkedField l))
                                            (Field.get_field_definition p.schema
                                              (.linkedField rr))
                                          && (Field.get_field_definition p.schema
                                              (.linkedField l)).name
                                            != (Field.get_field_definition p.schema
                                              (.linkedField rr)).name) = true
                                        then errs ++ [(Diagnostic.error
                                            (.ambiguousFieldAlias k
                                              (Field.get_field_definition p.schema
                                                (.linkedField l)).name
                                              (Field.get_field_definition p.schema
                                                (.linkedField rr)).name)
                                            l.location).annotate "the other field"
                                            rr.location]
                                        else errs) = (σ', sres) := by
                                      simpa [insertScan, hc1, hc2, hl, hr, hm] using h
                                    obtain ⟨hcoh4, hnc4⟩ := ihScan p env σ3 rest
                                      (.linkedField rr) k pe _ σ' sres hcoh3 hpwf
                                      hwfrest hwf h'
                                    refine ⟨hcoh4, fun hne => ?_⟩
                                    obtain ⟨m4, hm4⟩ := hnc4 hne
                                    set M := max (max m1 m2) (max m3 m4) with hM
                                    refine ⟨M + 1, ?_⟩
                                    have e1 : flattenLinkedFieldNC M p l = .ok lfs := by
                                      rw [ncMono_linked p l
                                        (le_trans (Nat.le_max_left m1 m2)
                                          (Nat.le_max_left _ _))
                                        (by rw [hm1]; simp), hm1]
                                    have e2 : flattenLinkedFieldNC M p rr = .ok rfs := by
                                      rw [ncMono_linked p rr
                                        (le_trans (Nat.le_max_right m1 m2)
                                          (Nat.le_max_left _ _))
                                        (by rw [hm2]; simp), hm2]
                                    have e3 : mergeFieldsNC M p lfs rfs
                                        (is_parent_fields_mutually_exclusive pe
                                          (Field.get_field_definition p.schema
                                            (.linkedField l))
                                          (Field.get_field_definition p.schema
                                            (.linkedField rr))) = (left3, .ok u) := by
                                      rw [ncMono_merge p lfs rfs _
                                        (le_trans (Nat.le_max_left m3 m4)
                                          (Nat.le_max_right _ _))
                                        (by rw [hm3]; simp), hm3]
                                    simp only [insertScanNC, hc1, hc2, e1, e2, e3]
                                    exact (ncMono_scan p rest (.linkedField rr) k pe _
                                      (le_trans (Nat.le_max_right m3 m4)
                                        (Nat.le_max_right _ _))
                                      (by rw [hm4]; exact hne)).trans hm4
                                | err es =>
                                    obtain ⟨hwf3, m3, hm3⟩ := hrest3 (by simp)
                                    have h' : insertScan n p σ3 rest (.linkedField rr)
                                        k pe ((if (!is_parent_fields_mutually_exclusive pe
                                            (Field.get_field_definition p.schema
                                              (.linkedField l))
                                            (Field.get_field_definition p.schema
                                              (.linkedField rr))
                                          && (Field.get_field_definition p.schema
                                              (.linkedField l)).name
                                            != (Field.get_field_definition p.schema
                                              (.linkedField rr)).name) = true
                                        then errs ++ [(Diagnostic.error
                                            (.ambiguousFieldAlias k
                                              (Field.get_field_definition p.schema
                                                (.linkedField l)).name
                                              (Field.get_field_definition p.schema
                                                (.linkedField rr)).name)
                                            l.location).annotate "the other field"
                                            rr.location]
                                        else errs) ++ es) = (σ', sres) := by
                                      simpa [insertScan, hc1, hc2, hl, hr, hm] using h
                                    obtain ⟨hcoh4, hnc4⟩ := ihScan p env σ3 rest
                                      (.linkedField rr) k pe _ σ' sres hcoh3 hpwf
                                      hwfrest hwf h'
                                    refine ⟨hcoh4, fun hne => ?_⟩
                                    obtain ⟨m4, hm4⟩ := hnc4 hne
                                    set M := max (max m1 m2) (max m3 m4) with hM
                                    refine ⟨M + 1, ?_⟩
                                    have e1 : flattenLinkedFieldNC M p l = .ok lfs := by
                                      rw [ncMono_linked p l
                                        (le_trans (Nat.le_max_left m1 m2)
                                          (Nat.le_max_left _ _))
                                        (by rw [hm1]; simp), hm1]
                                    have e2 : flattenLinkedFieldNC M p rr = .ok rfs := by
                                      rw [ncMono_linked p rr
                                        (le_trans (Nat.le_max_right m1 m2)
                                          (Nat.le_max_left _ _))
                                        (by rw [hm2]; simp), hm2]
                                    have e3 : mergeFieldsNC M p lfs rfs
                                        (is_parent_fields_mutually_exclusive pe
                                          (Field.get_field_definition p.schema
                                            (.linkedField l))
                                          (Field.get_field_definition p.schema
                                            (.linkedField rr))) = (left3, .err es) := by
                                      rw [ncMono_merge p lfs rfs _
                                        (le_trans (Nat.le_max_left m3 m4)
                                          (Nat.le_max_right _ _))
                                        (by rw [hm3]; simp), hm3]
                                    simp only [insertScanNC, hc1, hc2, e1, e2, e3]
                                    exact (ncMono_scan p rest (.linkedField rr) k pe _
                                      (le_trans (Nat.le_max_right m3 m4)
                                        (Nat.le_max_right _ _))
                                      (by rw [hm4]; exact hne)).trans hm4
                    | scalarFeild rr =>
                        have h' : insertScan n p σ rest (.scalarFeild rr) k pe
                            (errs ++ [(Diagnostic.error
                                (.ambiguousFieldType k
                                  (Field.get_field_definition p.schema
                                    (.linkedField l)).name
                                  (Field.get_field_definition p.schema
                                    (.scalarFeild rr)).name
                                  (p.schema.get_type_string
                                    (Field.get_field_definition p.schema
                                      (.linkedField l)).type_)
                                  (p.schema.get_type_string
                                    (Field.get_field_definition p.schema
                                      (.scalarFeild rr)).type_))
                                (Field.linkedField l).loc).annotate "the other field"
                                (Field.scalarFeild rr).loc]) = (σ', sres) := by
                          simpa [insertScan, hc1, hc2] using h
                        obtain ⟨hcoh1, hnc1⟩ := ihScan p env σ rest (.scalarFeild rr)
                          k pe _ σ' sres hcoh hpwf hwfrest hwf h'
                        refine ⟨hcoh1, fun hne => ?_⟩
                        obtain ⟨m1, hm1⟩ := hnc1 hne
                        refine ⟨m1 + 1, ?_⟩
                        simpa [insertScanNC, hc1, hc2] using hm1
                | scalarFeild l =>
                    cases field with
                    | linkedField rr =>
                        have h' : insertScan n p σ rest (.linkedField rr) k pe
                            (errs ++ [(Diagnostic.error
                                (.ambiguousFieldType k
                                  (Field.get_field_definition p.schema
                                    (.scalarFeild l)).name
                                  (Field.get_field_definition p.schema
                                    (.linkedField rr)).name
                                  (p.schema.get_type_string
                                    (Field.get_field_definition p.schema
                                      (.scalarFeild l)).type_)
                                  (p.schema.get_type_string
                                    (Field.get_field_definition p.schema
                                      (.linkedField rr)).type_))
                                (Field.scalarFeild l).loc).annotate "the other field"
                                (Field.linkedField rr).loc]) = (σ', sres) := by
                          simpa [insertScan, hc1, hc2] using h
                        obtain ⟨hcoh1, hnc1⟩ := ihScan p env σ rest (.linkedField rr)
                          k pe _ σ' sres hcoh hpwf hwfrest hwf h'
                        refine ⟨hcoh1, fun hne => ?_⟩
                        obtain ⟨m1, hm1⟩ := hnc1 hne
                        refine ⟨m1 + 1, ?_⟩
                        simpa [insertScanNC, hc1, hc2] using hm1
                    | scalarFeild rr =>
                        have h' : insertScan n p σ rest (.scalarFeild rr) k pe
                            (if !is_parent_fields_mutually_exclusive pe
                                (Field.get_field_definition p.schema (.scalarFeild l))
                                (Field.get_field_definition p.schema (.scalarFeild rr))
                            then if (Field.get_field_definition p.schema
                                  (.scalarFeild l)).name
                                != (Field.get_field_definition p.schema
                                  (.scalarFeild rr)).name
                              then errs ++ [(Diagnostic.error
                                  (.ambiguousFieldAlias k
                                    (Field.get_field_definition p.schema
                                      (.scalarFeild l)).name
                                    (Field.get_field_definition p.schema
                                      (.scalarFeild rr)).name)
                                  l.location).annotate "the other field" rr.location]
                              else errs
                            else if (Field.get_field_definition p.schema
                                  (.scalarFeild l)).type_
                                != (Field.get_field_definition p.schema
                                  (.scalarFeild rr)).type_
                              then errs ++ [(Diagnostic.error
                                  (.ambiguousFieldType k
                                    (Field.get_field_definition p.schema
                                      (.scalarFeild l)).name
                                    (Field.get_field_definition p.schema
                                      (.scalarFeild rr)).name
                                    (p.schema.get_type_string
                                      (Field.get_field_definition p.schema
                                        (.scalarFeild l)).type_)
                                    (p.schema.get_type_string
                                      (Field.get_field_definition p.schema
                                        (.scalarFeild rr)).type_))
                                  l.location).annotate "the other field"
                                  (Field.scalarFeild rr).loc]
                              else errs) = (σ', sres) := by
                          simpa [insertScan, hc1, hc2] using h
                        obtain ⟨hcoh1, hnc1⟩ := ihScan p env σ rest (.scalarFeild rr)
                          k pe _ σ' sres hcoh hpwf hwfrest hwf h'
                        refine ⟨hcoh1, fun hne => ?_⟩
                        obtain ⟨m1, hm1⟩ := hnc1 hne
                        refine ⟨m1 + 1, ?_⟩
                        simpa [insertScanNC, hc1, hc2] using hm1

/-! ### Append-only evolution of the cache state -/

theorem CachesExtends.refl (σ : Caches) : CachesExtends σ σ :=
  ⟨⟨[], by simp⟩, ⟨[], by simp⟩⟩

theorem CachesExtends.trans {σ3 σ2 σ1 : Caches} (h2 : CachesExtends σ3 σ2)
    (h1 : CachesExtends σ2 σ1) : CachesExtends σ3 σ1 := by
  obtain ⟨⟨d1, e1⟩, ⟨d2, e2⟩⟩ := h2
  obtain ⟨⟨d3, e3⟩, ⟨d4, e4⟩⟩ := h1
  exact ⟨⟨d1 ++ d3, by rw [e1, e3, List.append_assoc]⟩,
    ⟨d2 ++ d4, by rw [e2, e4, List.append_assoc]⟩⟩

theorem CachesExtends.consFragEntry (σ : Caches) (name : Nat) (fl : Fields) :
    CachesExtends { σ with fragmentCache := (name, fl) :: σ.fragmentCache } σ :=
  ⟨⟨[(name, fl)], rfl⟩, ⟨[], by simp⟩⟩

theorem CachesExtends.consFldEntry (σ : Caches) (i : Nat) (fl : Fields) :
    CachesExtends { σ with fieldsCache := (i, fl) :: σ.fieldsCache } σ :=
  ⟨⟨[], by simp⟩, ⟨[(i, fl)], rfl⟩⟩

/-- The cached validator only adds cache entries, never removes or replaces
them in place: every run's final state extends its initial state. -/
theorem cacheExtends : ∀ n : Nat,
    (∀ (p : Program) (σ : Caches) (sels : List Selection) (σ' : Caches)
      (r : VRes Fields), validateSelections n p σ sels = (σ', r) →
      CachesExtends σ' σ) ∧
    (∀ (p : Program) (σ : Caches) (fields : Fields) (errs : List Diagnostic)
      (sels : List Selection) (σ' : Caches) (r : VRes Fields),
      validateSelectionsGo n p σ fields errs sels = (σ', r) →
      CachesExtends σ' σ) ∧
    (∀ (p : Program) (σ : Caches) (fields : Fields) (s : Selection)
      (σ' : Caches) (fields' : Fields) (r : VRes Unit),
      validateSelection n p σ fields s = (σ', fields', r) →
      CachesExtends σ' σ) ∧
    (∀ (p : Program) (σ : Caches) (frag : FragmentDefinition) (σ' : Caches)
      (r : VRes Fields), validateAndCollectFragment n p σ frag = (σ', r) →
      CachesExtends σ' σ) ∧
    (∀ (p : Program) (σ : Caches) (lf : LinkedField) (σ' : Caches)
      (r : VRes Fields), validateLinkedFieldSelections n p σ lf = (σ', r) →
      CachesExtends σ' σ) ∧
    (∀ (p : Program) (σ : Caches) (left right : Fields) (excl : Bool)
      (σ' : Caches) (left' : Fields) (r : VRes Unit),
      validateAndMergeFields n p σ left right excl = (σ', left', r) →
      CachesExtends σ' σ) ∧
    (∀ (p : Program) (σ : Caches) (left : Fields) (errs : List Diagnostic)
      (right : Fields) (excl : Bool) (σ' : Caches) (left' : Fields)
      (r : VRes Unit),
      validateAndMergeFieldsGo n p σ left errs right excl = (σ', left', r) →
      CachesExtends σ' σ) ∧
    (∀ (p : Program) (σ : Caches) (fields : Fields) (field : Field) (pe : Bool)
      (σ' : Caches) (fs' : Fields) (r : VRes Unit),
      validateAndInsertFieldSelection n p σ fields field pe = (σ', fs', r) →
      CachesExtends σ' σ) ∧
    (∀ (p : Program) (σ : Caches) (fields : Fields) (field : Field) (k : Nat)
      (pe : Bool) (errs : List Diagnostic) (σ' : Caches) (sres : ScanRes),
      insertScan n p σ fields field k pe errs = (σ', sres) →
      CachesExtends σ' σ) := by
  intro n
  induction n with
  | zero =>
      refine ⟨?_, ?_, ?_, ?_, ?_, ?_, ?_, ?_, ?_⟩
      · intro p σ sels σ' r h
        obtain ⟨rfl, -⟩ : σ = σ' ∧ (VRes.stuck : VRes Fields) = r := by
          simpa [validateSelections] using h
        exact CachesExtends.refl σ
      · intro p σ fields errs sels σ' r h
        obtain ⟨rfl, -⟩ : σ = σ' ∧ (VRes.stuck : VRes Fields) = r := by
          simpa [validateSelectionsGo] using h
        exact CachesExtends.refl σ
      · intro p σ fields s σ' fields' r h
        obtain ⟨rfl, -, -⟩ :
            σ = σ' ∧ fields = fields' ∧ (VRes.stuck : VRes Unit) = r := by
          simpa [validateSelection] using h
        exact CachesExtends.refl σ
      · intro p σ frag σ' r h
        obtain ⟨rfl, -⟩ : σ = σ' ∧ (VRes.stuck : VRes Fields) = r := by
          simpa [validateAndCollectFragment] using h
        exact CachesExtends.refl σ
      · intro p σ lf σ' r h
        obtain ⟨rfl, -⟩ : σ = σ' ∧ (VRes.stuck : VRes Fields) = r := by
          simpa [validateLinkedFieldSelections] using h
        exact CachesExtends.refl σ
      · intro p σ left right excl σ' left' r h
        obtain ⟨rfl, -, -⟩ :
            σ = σ' ∧ left = left' ∧ (VRes.stuck : VRes Unit) = r := by
          simpa [validateAndMergeFields] using h
        exact CachesExtends.refl σ
      · intro p σ left errs right excl σ' left' r h
        obtain ⟨rfl, -, -⟩ :
            σ = σ' ∧ left = left' ∧ (VRes.stuck : VRes Unit) = r := by
          simpa [validateAndMergeFieldsGo] using h
        exact CachesExtends.refl σ
      · intro p σ fields field pe σ' fs' r h
        obtain ⟨rfl, -, -⟩ :
            σ = σ' ∧ fields = fs' ∧ (VRes.stuck : VRes Unit) = r := by
          simpa [validateAndInsertFieldSelection] using h
        exact CachesExtends.refl σ
      · intro p σ fields field k pe errs σ' sres h
        obtain ⟨rfl, -⟩ : σ = σ' ∧ ScanRes.scanStuck = sres := by
          simpa [insertScan] using h
        exact CachesExtends.refl σ
  | succ n ih =>
      obtain ⟨ihSels, ihGo, ihSel, ihCol, ihLF, ihMg, ihMgo, ihIns, ihScan⟩ := ih
      refine ⟨?_, ?_, ?_, ?_, ?_, ?_, ?_, ?_, ?_⟩
      · intro p σ sels σ' r h
        exact ihGo p σ [] [] sels σ' r h
      · intro p σ fields errs sels σ' r h
        cases sels with
        | nil =>
            obtain ⟨rfl, -⟩ :
                σ = σ' ∧ (if errs.isEmpty then VRes.ok fields else .err errs) = r := by
              simpa [validateSelectionsGo] using h
            exact CachesExtends.refl σ
        | cons s rest =>
            rcases hs : validateSelection n p σ fields s with ⟨σ1, fields1, r1⟩
            have hx1 := ihSel p σ fields s σ1 fields1 r1 hs
            cases r1 with
            | stuck =>
                obtain ⟨rfl, -⟩ : σ1 = σ' ∧ (VRes.stuck : VRes Fields) = r := by
                  simpa [validateSelectionsGo, hs] using h
                exact hx1
            | ok u =>
                have h' : validateSelectionsGo n p σ1 fields1 errs rest = (σ', r) := by
                  simpa [validateSelectionsGo, hs] using h
                exact (ihGo p σ1 fields1 errs rest σ' r h').trans hx1
            | err es =>
                have h' : validateSelectionsGo n p σ1 fields1 (errs ++ es) rest
                    = (σ', r) := by
                  simpa [validateSelectionsGo, hs] using h
                exact (ihGo p σ1 fields1 (errs ++ es) rest σ' r h').trans hx1
      · intro p σ fields s σ' fields' r h
        cases s with
        | linkedField a d loc i sels =>
            rcases hlf : validateLinkedFieldSelections n p σ ⟨a, d, loc, i, sels⟩
              with ⟨σ1, rl⟩
            have hx1 := ihLF p σ ⟨a, d, loc, i, sels⟩ σ1 rl hlf
            cases rl with
            | stuck =>
                obtain ⟨rfl, -, -⟩ :
                    σ1 = σ' ∧ fields = fields' ∧ (VRes.stuck : VRes Unit) = r := by
                  simpa [validateSelection, hlf] using h
                exact hx1
            | err es =>
                obtain ⟨rfl, -, -⟩ :
                    σ1 = σ' ∧ fields = fields' ∧ (VRes.err es : VRes Unit) = r := by
                  simpa [validateSelection, hlf] using h
                exact hx1
            | ok u =>
                have h' : validateAndInsertFieldSelection n p σ1 fields
                    (.linkedField ⟨a, d, loc, i, sels⟩) false = (σ', fields', r) := by
                  simpa [validateSelection, hlf] using h
                exact (ihIns p σ1 fields _ false σ' fields' r h').trans hx1
        | scalarField sf =>
            exact ihIns p σ fields (.scalarFeild sf) false σ' fields' r h
        | condition sels =>
            rcases hflat : validateSelections n p σ sels with ⟨σ1, rl⟩
            have hx1 := ihSels p σ sels σ1 rl hflat
            cases rl with
            | stuck =>
                obtain ⟨rfl, -, -⟩ :
                    σ1 = σ' ∧ fields = fields' ∧ (VRes.stuck : VRes Unit) = r := by
                  simpa [validateSelection, hflat] using h
                exact hx1
            | err es =>
                obtain ⟨rfl, -, -⟩ :
                    σ1 = σ' ∧ fields = fields' ∧ (VRes.err es : VRes Unit) = r := by
                  simpa [validateSelection, hflat] using h
                exact hx1
            | ok newFields =>
                have h' : validateAndMergeFields n p σ1 fields newFields false
                    = (σ', fields', r) := by
                  simpa [validateSelection, hflat] using h
                exact (ihMg p σ1 fields newFields false σ' fields' r h').trans hx1
        | inlineFragment sels =>
            rcases hflat : validateSelections n p σ sels with ⟨σ1, rl⟩
            have hx1 := ihSels p σ sels σ1 rl hflat
            cases rl with
            | stuck =>
                obtain ⟨rfl, -, -⟩ :
                    σ1 = σ' ∧ fields = fields' ∧ (VRes.stuck : VRes Unit) = r := by
                  simpa [validateSelection, hflat] using h
                exact hx1
            | err es =>
                obtain ⟨rfl, -, -⟩ :
                    σ1 = σ' ∧ fields = fields' ∧ (VRes.err es : VRes Unit) = r := by
                  simpa [validateSelection, hflat] using h
                exact hx1
            | ok newFields =>
                have h' : validateAndMergeFields n p σ1 fields newFields false
                    = (σ', fields', r) := by
                  simpa [validateSelection, hflat] using h
                exact (ihMg p σ1 fields newFields false σ' fields' r h').trans hx1
        | fragmentSpread name =>
            rcases hfr : p.fragments.lookup name with _ | frag
            · obtain ⟨rfl, -, -⟩ :
                  σ = σ' ∧ fields = fields' ∧ (VRes.stuck : VRes Unit) = r := by
                simpa [validateSelection, hfr] using h
              exact CachesExtends.refl σ
            · rcases hcol : validateAndCollectFragment n p σ frag with ⟨σ1, rl⟩
              have hx1 := ihCol p σ frag σ1 rl hcol
              cases rl with
              | stuck =>
                  obtain ⟨rfl, -, -⟩ :
                      σ1 = σ' ∧ fields = fields' ∧ (VRes.stuck : VRes Unit) = r := by
                    simpa [validateSelection, hfr, hcol] using h
                  exact hx1
              | err es =>
                  obtain ⟨rfl, -, -⟩ :
                      σ1 = σ' ∧ fields = fields' ∧ (VRes.err es : VRes Unit) = r := by
                    simpa [validateSelection, hfr, hcol] using h
                  exact hx1
              | ok newFields =>
                  have h' : validateAndMergeFields n p σ1 fields newFields false
                      = (σ', fields', r) := by
                    simpa [validateSelection, hfr, hcol] using h
                  exact (ihMg p σ1 fields newFields false σ' fields' r h').trans hx1
      · intro p σ frag σ' r h
        rcases hlk : σ.fragmentCache.lookup frag.name with _ | cached
        · rcases hflat : validateSelections n p σ frag.selections with ⟨σ1, rl⟩
          have hx1 := ihSels p σ frag.selections σ1 rl hflat
          cases rl with
          | stuck =>
              obtain ⟨rfl, -⟩ : σ1 = σ' ∧ (VRes.stuck : VRes Fields) = r := by
                simpa [validateAndCollectFragment, hlk, hflat] using h
              exact hx1
          | err es =>
              obtain ⟨rfl, -⟩ : σ1 = σ' ∧ (VRes.err es : VRes Fields) = r := by
                simpa [validateAndCollectFragment, hlk, hflat] using h
              exact hx1
          | ok fl =>
              obtain ⟨rfl, -⟩ :
                  { σ1 with fragmentCache := (frag.name, fl) :: σ1.fragmentCache } = σ'
                    ∧ (VRes.ok fl : VRes Fields) = r := by
                simpa [validateAndCollectFragment, hlk, hflat] using h
              exact (CachesExtends.consFragEntry σ1 frag.name fl).trans hx1
        · obtain ⟨rfl, -⟩ : σ = σ' ∧ (VRes.ok cached : VRes Fields) = r := by
            simpa [validateAndCollectFragment, hlk] using h
          exact CachesExtends.refl σ
      · intro p σ lf σ' r h
        rcases hlk : σ.fieldsCache.lookup lf.id with _ | cached
        · rcases hflat : validateSelections n p σ lf.selections with ⟨σ1, rl⟩
          have hx1 := ihSels p σ lf.selections σ1 rl hflat
          cases rl with
          | stuck =>
              obtain ⟨rfl, -⟩ : σ1 = σ' ∧ (VRes.stuck : VRes Fields) = r := by
                simpa [validateLinkedFieldSelections, hlk, hflat] using h
              exact hx1
          | err es =>
              obtain ⟨rfl, -⟩ : σ1 = σ' ∧ (VRes.err es : VRes Fields) = r := by
                simpa [validateLinkedFieldSelections, hlk, hflat] using h
              exact hx1
          | ok fl =>
              obtain ⟨rfl, -⟩ :
                  { σ1 with fieldsCache := (lf.id, fl) :: σ1.fieldsCache } = σ'
                    ∧ (VRes.ok fl : VRes Fields) = r := by
                simpa [validateLinkedFieldSelections, hlk, hflat] using h
              exact (CachesExtends.consFldEntry σ1 lf.id fl).trans hx1
        · obtain ⟨rfl, -⟩ : σ = σ' ∧ (VRes.ok cached : VRes Fields) = r := by
            simpa [validateLinkedFieldSelections, hlk] using h
          exact CachesExtends.refl σ
      · intro p σ left right excl σ' left' r h
        exact ihMgo p σ left [] right excl σ' left' r h
      · intro p σ left errs right excl σ' left' r h
        cases right with
        | nil =>
            obtain ⟨rfl, -, -⟩ :
                σ = σ' ∧ left = left'
                  ∧ (if errs.isEmpty then VRes.ok () else .err errs) = r := by
              simpa [validateAndMergeFieldsGo] using h
            exact CachesExtends.refl σ
        | cons f rest =>
            rcases hf : validateAndInsertFieldSelection n p σ left f excl
              with ⟨σ1, left1, r1⟩
            have hx1 := ihIns p σ left f excl σ1 left1 r1 hf
            cases r1 with
            | stuck =>
                obtain ⟨rfl, -, -⟩ :
                    σ1 = σ' ∧ left1 = left' ∧ (VRes.stuck : VRes Unit) = r := by
                  simpa [validateAndMergeFieldsGo, hf] using h
                exact hx1
            | ok u =>
                have h' : validateAndMergeFieldsGo n p σ1 left1 errs rest excl
                    = (σ', left', r) := by
                  simpa [validateAndMergeFieldsGo, hf] using h
                exact (ihMgo p σ1 left1 errs rest excl σ' left' r h').trans hx1
            | err es =>
                have h' : validateAndMergeFieldsGo n p σ1 left1 (errs ++ es) rest excl
                    = (σ', left', r) := by
                  simpa [validateAndMergeFieldsGo, hf] using h
                exact (ihMgo p σ1 left1 (errs ++ es) rest excl σ' left' r h').trans hx1
      · intro p σ fields field pe σ' fs' r h
        rcases hscan : insertScan n p σ fields field
            (field.get_response_key p.schema) pe [] with ⟨σ1, sres⟩
        have hx1 := ihScan p σ fields field _ pe [] σ1 sres hscan
        cases sres with
        | scanStuck =>
            obtain ⟨rfl, -, -⟩ :
                σ1 = σ' ∧ fields = fs' ∧ (VRes.stuck : VRes Unit) = r := by
              simpa [validateAndInsertFieldSelection, hscan] using h
            exact hx1
        | scanDone errs =>
            by_cases he : errs.isEmpty
            · obtain ⟨rfl, -, -⟩ :
                  σ1 = σ' ∧ fields ++ [field] = fs' ∧ (VRes.ok () : VRes Unit) = r := by
                simpa [validateAndInsertFieldSelection, hscan, he] using h
              exact hx1
            · obtain ⟨rfl, -, -⟩ :
                  σ1 = σ' ∧ fields = fs' ∧ (VRes.err errs : VRes Unit) = r := by
                simpa [validateAndInsertFieldSelection, hscan, he] using h
              exact hx1
        | scanReturn r0 =>
            obtain ⟨rfl, -, -⟩ : σ1 = σ' ∧ fields = fs' ∧ r0 = r := by
              simpa [validateAndInsertFieldSelection, hscan] using h
            exact hx1
      · intro p σ fields field k pe errs σ' sres h
        cases fields with
        | nil =>
            obtain ⟨rfl, -⟩ : σ = σ' ∧ ScanRes.scanDone errs = sres := by
              simpa [insertScan] using h
            exact CachesExtends.refl σ
        | cons e rest =>
            by_cases hc1 : (k != e.get_response_key p.schema) = true
            · have h' : insertScan n p σ rest field k pe errs = (σ', sres) := by
                simpa [insertScan, hc1] using h
              exact ihScan p σ rest field k pe errs σ' sres h'
            · by_cases hc2 : Field.valEq field e = true
              · obtain ⟨rfl, -⟩ :
                    σ = σ' ∧ ScanRes.scanReturn
                      (if errs.isEmpty then VRes.ok () else .err errs) = sres := by
                  simpa [insertScan, hc1, hc2] using h
                exact CachesExtends.refl σ
              · cases e with
                | linkedField l =>
                    cases field with
                    | linkedField rr =>
                        rcases hl : validateLinkedFieldSelections n p σ l with ⟨σ1, rl⟩
                        have hx1 := ihLF p σ l σ1 rl hl
                        cases rl with
                        | stuck =>
                            obtain ⟨rfl, -⟩ : σ1 = σ' ∧ ScanRes.scanStuck = sres := by
                              simpa [insertScan, hc1, hc2, hl] using h
                            exact hx1
                        | err es =>
                            obtain ⟨rfl, -⟩ :
                                σ1 = σ' ∧ ScanRes.scanReturn (.err es) = sres := by
                              simpa [insertScan, hc1, hc2, hl] using h
                            exact hx1
                        | ok lfs =>
                            rcases hr : validateLinkedFieldSelections n p σ1 rr
                              with ⟨σ2, rl2⟩
                            have hx2 := ihLF p σ1 rr σ2 rl2 hr
                            cases rl2 with
                            | stuck =>
                                obtain ⟨rfl, -⟩ :
                                    σ2 = σ' ∧ ScanRes.scanStuck = sres := by
                                  simpa [insertScan, hc1, hc2, hl, hr] using h
                                exact hx2.trans hx1
                            | err es =>
                                obtain ⟨rfl, -⟩ :
                                    σ2 = σ' ∧ ScanRes.scanReturn (.err es) = sres := by
                                  simpa [insertScan, hc1, hc2, hl, hr] using h
                                exact hx2.trans hx1
                            | ok rfs =>
                                rcases hm : validateAndMergeFields n p σ2 lfs rfs
                                    (is_parent_fields_mutually_exclusive pe
                                      (Field.get_field_definition p.schema (.linkedField l))
                                      (Field.get_field_definition p.schema (.linkedField rr)))
                                  with ⟨σ3, left3, rm⟩
                                have hx3 := ihMg p σ2 lfs rfs _ σ3 left3 rm hm
                                cases rm with
                                | stuck =>
                                    obtain ⟨rfl, -⟩ :
                                        σ3 = σ' ∧ ScanRes.scanStuck = sres := by
                                      simpa [insertScan, hc1, hc2, hl, hr, hm] using h
                                    exact (hx3.trans hx2).trans hx1
                                | ok u =>
                                    rcases hrec : insertScan n p σ3 rest
                                        (.linkedField rr) k pe
                                        (if (!is_parent_fields_mutually_exclusive pe
                                            (Field.get_field_definition p.schema
                                              (.linkedField l))
                                            (Field.get_field_definition p.schema
                                              (.linkedField rr))
                                          && (Field.get_field_definition p.schema
                                              (.linkedField l)).name
                                            != (Field.get_field_definition p.schema
                                              (.linkedField rr)).name) = true
                                        then errs ++ [(Diagnostic.error
                                            (.ambiguousFieldAlias k
                                              (Field.get_field_definition p.schema
                                                (.linkedField l)).name
                                              (Field.get_field_definition p.schema
                                                (.linkedField rr)).name)
                                            l.location).annotate "the other field"
                                            rr.location]
                                        else errs) with ⟨σ4, sres4⟩
                                    have hx4 := ihScan p σ3 rest (.linkedField rr)
                                      k pe _ σ4 sres4 hrec
                                    obtain ⟨rfl, -⟩ : σ4 = σ' ∧ sres4 = sres := by
                                      constructor
                                      · have := h
                                        simp only [insertScan, hc1, hc2, hl, hr, hm,
                                          hrec] at this
                                        simpa using congrArg Prod.fst this
                                      · have := h
                                        simp only [insertScan, hc1, hc2, hl, hr, hm,
                                          hrec] at this
                                        simpa using congrArg Prod.snd this
                                    exact ((hx4.trans hx3).trans hx2).trans hx1
                                | err es =>
                                    rcases hrec : insertScan n p σ3 rest
                                        (.linkedField rr) k pe
                                        ((if (!is_parent_fields_mutually_exclusive pe
                                            (Field.get_field_definition p.schema
                                              (.linkedField l))
                                            (Field.get_field_definition p.schema
                                              (.linkedField rr))
                                          && (Field.get_field_definition p.schema
                                              (.linkedField l)).name
                                            != (Field.get_field_definition p.schema
                                              (.linkedField rr)).name) = true
                                        then errs ++ [(Diagnostic.error
                                            (.ambiguousFieldAlias k
                                              (Field.get_field_definition p.schema
                                                (.linkedField l)).name
                                              (Field.get_field_definition p.schema
                                                (.linkedField rr)).name)
                                            l.location).annotate "the other field"
                                            rr.location]
                                        else errs) ++ es) with ⟨σ4, sres4⟩
                                    have hx4 := ihScan p σ3 rest (.linkedField rr)
                                      k pe _ σ4 sres4 hrec
                                    obtain ⟨rfl, -⟩ : σ4 = σ' ∧ sres4 = sres := by
                                      constructor
                                      · have := h
                                        simp only [insertScan, hc1, hc2, hl, hr, hm,
                                          hrec] at this
                                        simpa using congrArg Prod.fst this
                                      · have := h
                                        simp only [insertScan, hc1, hc2, hl, hr, hm,
                                          hrec] at this
                                        simpa using congrArg Prod.snd this
                                    exact ((hx4.trans hx3).trans hx2).trans hx1
                    | scalarFeild rr =>
                        rcases hrec : insertScan n p σ rest (.scalarFeild rr) k pe
                            (errs ++ [(Diagnostic.error
                                (.ambiguousFieldType k
                                  (Field.get_field_definition p.schema
                                    (.linkedField l)).name
                                  (Field.get_field_definition p.schema
                                    (.scalarFeild rr)).name
                                  (p.schema.get_type_string
                                    (Field.get_field_definition p.schema
                                      (.linkedField l)).type_)
                                  (p.schema.get_type_string
                                    (Field.get_field_definition p.schema
                                      (.scalarFeild rr)).type_))
                                (Field.linkedField l).loc).annotate "the other field"
                                (Field.scalarFeild rr).loc]) with ⟨σ4, sres4⟩
                        have hx4 := ihScan p σ rest (.scalarFeild rr) k pe _ σ4 sres4 hrec
                        obtain ⟨rfl, -⟩ : σ4 = σ' ∧ sres4 = sres := by
                          constructor
                          · have := h
                            simp only [insertScan, hc1, hc2, hrec] at this
                            simpa using congrArg Prod.fst this
                          · have := h
                            simp only [insertScan, hc1, hc2, hrec] at this
                            simpa using congrArg Prod.snd this
                        exact hx4
                | scalarFeild l =>
                    cases field with
                    | linkedField rr =>
                        rcases hrec : insertScan n p σ rest (.linkedField rr) k pe
                            (errs ++ [(Diagnostic.error
                                (.ambiguousFieldType k
                                  (Field.get_field_definition p.schema
                                    (.scalarFeild l)).name
                                  (Field.get_field_definition p.schema
                                    (.linkedField rr)).name
                                  (p.schema.get_type_string
                                    (Field.get_field_definition p.schema
                                      (.scalarFeild l)).type_)
                                  (p.schema.get_type_string
                                    (Field.get_field_definition p.schema
                                      (.linkedField rr)).type_))
                                (Field.scalarFeild l).loc).annotate "the other field"
                                (Field.linkedField rr).loc]) with ⟨σ4, sres4⟩
                        have hx4 := ihScan p σ rest (.linkedField rr) k pe _ σ4 sres4 hrec
                        obtain ⟨rfl, -⟩ : σ4 = σ' ∧ sres4 = sres := by
                          constructor
                          · have := h
                            simp only [insertScan, hc1, hc2, hrec] at this
                            simpa using congrArg Prod.fst this
                          · have := h
                            simp only [insertScan, hc1, hc2, hrec] at this
                            simpa using congrArg Prod.snd this
                        exact hx4
                    | scalarFeild rr =>
                        rcases hrec : insertScan n p σ rest (.scalarFeild rr) k pe
                            (if !is_parent_fields_mutually_exclusive pe
                                (Field.get_field_definition p.schema (.scalarFeild l))
                                (Field.get_field_definition p.schema (.scalarFeild rr))
                            then if (Field.get_field_definition p.schema
                                  (.scalarFeild l)).name
                                != (Field.get_field_definition p.schema
                                  (.scalarFeild rr)).name
                              then errs ++ [(Diagnostic.error
                                  (.ambiguousFieldAlias k
                                    (Field.get_field_definition p.schema
                                      (.scalarFeild l)).name
                                    (Field.get_field_definition p.schema
                                      (.scalarFeild rr)).name)
                                  l.location).annotate "the other field" rr.location]
                              else errs
                            else if (Field.get_field_definition p.schema
                                  (.scalarFeild l)).type_
                                != (Field.get_field_definition p.schema
                                  (.scalarFeild rr)).type_
                              then errs ++ [(Diagnostic.error
                                  (.ambiguousFieldType k
                                    (Field.get_field_definition p.schema
                                      (.scalarFeild l)).name
                                    (Field.get_field_definition p.schema
                                      (.scalarFeild rr)).name
                                    (p.schema.get_type_string
                                      (Field.get_field_definition p.schema
                                        (.scalarFeild l)).type_)
                                    (p.schema.get_type_string
                                      (Field.get_field_definition p.schema
                                        (.scalarFeild rr)).type_))
                                  l.location).annotate "the other field"
                                  (Field.scalarFeild rr).loc]
                              else errs) with ⟨σ4, sres4⟩
                        have hx4 := ihScan p σ rest (.scalarFeild rr) k pe _ σ4 sres4 hrec
                        obtain ⟨rfl, -⟩ : σ4 = σ' ∧ sres4 = sres := by
                          constructor
                          · have := h
                            simp only [insertScan, hc1, hc2, hrec] at this
                            simpa using congrArg Prod.fst this
                          · have := h
                            simp only [insertScan, hc1, hc2, hrec] at this
                            simpa using congrArg Prod.snd this
                        exact hx4

/-! ### Lookup preservation -/

theorem lookup_append (k : Nat) (l1 l2 : List (Nat × Fields)) :
    List.lookup k (l1 ++ l2)
      = match List.lookup k l1 with
        | some v => some v
        | none => List.lookup k l2 := by
  induction l1 with
  | nil => simp [List.lookup]
  | cons a t ih =>
      rcases a with ⟨k1, v1⟩
      by_cases hbe : (k == k1) = true <;> simp [List.lookup, hbe, ih]

/-- Between two coherent states related by append-only evolution, the value
stored under any fragment-cache key present in the older state is unchanged
in the newer one. -/
theorem lookupPreserved_frag {p : Program} {env : Env} {σ σ' : Caches}
    (hcoh : Coh p env σ) (hcoh' : Coh p env σ') (hext : CachesExtends σ' σ)
    {k : Nat} {v : Fields} (hlk : σ.fragmentCache.lookup k = some v) :
    σ'.fragmentCache.lookup k = some v := by
  obtain ⟨⟨d, hd⟩, -⟩ := hext
  rw [hd, lookup_append]
  rcases hΔ : List.lookup k d with _ | v'
  · exact hlk
  · have hlk' : σ'.fragmentCache.lookup k = some v' := by
      rw [hd, lookup_append, hΔ]
    obtain ⟨fd, hfd, ⟨m1, hm1⟩, -⟩ := hcoh.frag k v hlk
    obtain ⟨fd', hfd', ⟨m2, hm2⟩, -⟩ := hcoh'.frag k v' hlk'
    obtain rfl : fd = fd' := by
      have := hfd.symm.trans hfd'
      simpa using this
    have := ncDet_sels hm1 hm2 (by simp) (by simp)
    obtain rfl : v = v' := by simpa using this
    rfl

/-- Companion of `lookupPreserved_frag` for the node-identity-keyed cache. -/
theorem lookupPreserved_fld {p : Program} {env : Env} {σ σ' : Caches}
    (hcoh : Coh p env σ) (hcoh' : Coh p env σ') (hext : CachesExtends σ' σ)
    {i : Nat} {v : Fields} (hlk : σ.fieldsCache.lookup i = some v) :
    σ'.fieldsCache.lookup i = some v := by
  obtain ⟨-, ⟨d, hd⟩⟩ := hext
  rw [hd, lookup_append]
  rcases hΔ : List.lookup i d with _ | v'
  · exact hlk
  · have hlk' : σ'.fieldsCache.lookup i = some v' := by
      rw [hd, lookup_append, hΔ]
    obtain ⟨sels, hsels, -, ⟨m1, hm1⟩, -⟩ := hcoh.fld i v hlk
    obtain ⟨sels', hsels', -, ⟨m2, hm2⟩, -⟩ := hcoh'.fld i v' hlk'
    obtain rfl : sels = sels' := by
      have := hsels.symm.trans hsels'
      simpa using this
    have := ncDet_sels hm1 hm2 (by simp) (by simp)
    obtain rfl : v = v' := by simpa using this
    rfl

/-! ### Driver-level coherence and evolution -/

theorem runOperations_sim (fuel : Nat) (p : Program) (env : Env) :
    ∀ (ops : List OperationDefinition) (σ : Caches) (errs : List Diagnostic)
      (σ' : Caches) (res : Option (List Diagnostic)),
      Coh p env σ → ProgramWF p env → (∀ op ∈ ops, SelsWF env op.selections) →
      runOperations fuel p σ ops errs = (σ', res) →
      Coh p env σ' ∧ CachesExtends σ' σ := by
  intro ops
  induction ops with
  | nil =>
      intro σ errs σ' res hcoh hpwf hops h
      obtain ⟨rfl, -⟩ : σ = σ' ∧ some errs = res := by
        simpa [runOperations] using h
      exact ⟨hcoh, CachesExtends.refl σ⟩
  | cons op rest ih =>
      intro σ errs σ' res hcoh hpwf hops h
      rcases hop : validateSelections fuel p σ op.selections with ⟨σ1, r1⟩
      have hcoh1 := ((cacheSim fuel).1 p env σ op.selections σ1 r1 hcoh hpwf
        (hops op (List.mem_cons_self _ _)) hop).1
      have hx1 := (cacheExtends fuel).1 p σ op.selections σ1 r1 hop
      have hops' : ∀ o ∈ rest, SelsWF env o.selections :=
        fun o ho => hops o (List.mem_cons_of_mem _ ho)
      cases r1 with
      | stuck =>
          obtain ⟨rfl, -⟩ : σ1 = σ' ∧ (none : Option (List Diagnostic)) = res := by
            simpa [runOperations, validateOperation, hop] using h
          exact ⟨hcoh1, hx1⟩
      | ok u =>
          have h' : runOperations fuel p σ1 rest errs = (σ', res) := by
            simpa [runOperations, validateOperation, hop] using h
          obtain ⟨hcoh2, hx2⟩ := ih σ1 errs σ' res hcoh1 hpwf hops' h'
          exact ⟨hcoh2, hx2.trans hx1⟩
      | err es =>
          have h' : runOperations fuel p σ1 rest (errs ++ es) = (σ', res) := by
            simpa [runOperations, validateOperation, hop] using h
          obtain ⟨hcoh2, hx2⟩ := ih σ1 (errs ++ es) σ' res hcoh1 hpwf hops' h'
          exact ⟨hcoh2, hx2.trans hx1⟩

theorem runFragments_sim (fuel : Nat) (p : Program) (env : Env) :
    ∀ (frs : List (Nat × FragmentDefinition)) (σ : Caches)
      (errs : List Diagnostic) (σ' : Caches) (res : Option (List Diagnostic)),
      Coh p env σ → ProgramWF p env →
      (∀ pr ∈ frs, p.fragments.lookup pr.2.name = some pr.2) →
      runFragments fuel p σ frs errs = (σ', res) →
      Coh p env σ' ∧ CachesExtends σ' σ := by
  intro frs
  induction frs with
  | nil =>
      intro σ errs σ' res hcoh hpwf hmem h
      obtain ⟨rfl, -⟩ : σ = σ' ∧ some errs = res := by
        simpa [runFragments] using h
      exact ⟨hcoh, CachesExtends.refl σ⟩
  | cons pr rest ih =>
      intro σ errs σ' res hcoh hpwf hmem h
      rcases pr with ⟨key, frag⟩
      rcases hcol : validateAndCollectFragment fuel p σ frag with ⟨σ1, r1⟩
      have hcoh1 := ((cacheSim fuel).2.2.2.1 p env σ frag σ1 r1 hcoh hpwf
        (hmem (key, frag) (List.mem_cons_self _ _)) hcol).1
      have hx1 := (cacheExtends fuel).2.2.2.1 p σ frag σ1 r1 hcol
      have hmem' : ∀ pr ∈ rest, p.fragments.lookup pr.2.name = some pr.2 :=
        fun q hq => hmem q (List.mem_cons_of_mem _ hq)
      cases r1 with
      | stuck =>
          obtain ⟨rfl, -⟩ : σ1 = σ' ∧ (none : Option (List Diagnostic)) = res := by
            simpa [runFragments, hcol] using h
          exact ⟨hcoh1, hx1⟩
      | ok u =>
          have h' : runFragments fuel p σ1 rest errs = (σ', res) := by
            simpa [runFragments, hcol] using h
          obtain ⟨hcoh2, hx2⟩ := ih σ1 errs σ' res hcoh1 hpwf hmem' h'
          exact ⟨hcoh2, hx2.trans hx1⟩
      | err es =>
          have h' : runFragments fuel p σ1 rest (errs ++ es) = (σ', res) := by
            simpa [runFragments, hcol] using h
          obtain ⟨hcoh2, hx2⟩ := ih σ1 (errs ++ es) σ' res hcoh1 hpwf hmem' h'
          exact ⟨hcoh2, hx2.trans hx1⟩

theorem validateProgram_sim (fuel : Nat) (p : Program) (env : Env)
    (σ σ' : Caches) (res : VRes Unit) (hcoh : Coh p env σ)
    (hpwf : ProgramWF p env) (h : validateProgram fuel p σ = (σ', res)) :
    Coh p env σ' ∧ CachesExtends σ' σ := by
  rcases h1 : runOperations fuel p σ p.operations [] with ⟨σ1, o1⟩
  obtain ⟨hcoh1, hx1⟩ := runOperations_sim fuel p env p.operations σ [] σ1 o1
    hcoh hpwf hpwf.ops h1
  cases o1 with
  | none =>
      obtain ⟨rfl, -⟩ : σ1 = σ' ∧ (VRes.stuck : VRes Unit) = res := by
        simpa [validateProgram, h1] using h
      exact ⟨hcoh1, hx1⟩
  | some es1 =>
      rcases h2 : runFragments fuel p σ1 p.fragments [] with ⟨σ2, o2⟩
      obtain ⟨hcoh2, hx2⟩ := runFragments_sim fuel p env p.fragments σ1 [] σ2 o2
        hcoh1 hpwf hpwf.mem h2
      cases o2 with
      | none =>
          obtain ⟨rfl, -⟩ : σ2 = σ' ∧ (VRes.stuck : VRes Unit) = res := by
            simpa [validateProgram, h1, h2] using h
          exact ⟨hcoh2, hx2.trans hx1⟩
      | some es2 =>
          obtain ⟨rfl, -⟩ :
              σ2 = σ' ∧ (if (es1 ++ es2).isEmpty then VRes.ok ()
                else .err (es1 ++ es2)) = res := by
            simpa [validateProgram, h1, h2] using h
          exact ⟨hcoh2, hx2.trans hx1⟩

/-! ### Claim C9 -/

/-- Claim C9: a cached flattened list — keyed by fragment name or by
linked-field node identity — is never mutated once inserted: across any
(partial) flattening and across a whole driver run from a coherent state,
every key present in a cache table keeps exactly its stored value; nested
merges only ever read cached lists and extend private copies. -/
theorem C9_cache_immutability :
    (∀ (n : Nat) (p : Program) (env : Env) (σ : Caches)
      (sels : List Selection) (σ' : Caches) (r : VRes Fields),
      Coh p env σ → ProgramWF p env → SelsWF env sels →
      validateSelections n p σ sels = (σ', r) →
      (∀ k v, σ.fragmentCache.lookup k = some v →
        σ'.fragmentCache.lookup k = some v) ∧
      (∀ i v, σ.fieldsCache.lookup i = some v →
        σ'.fieldsCache.lookup i = some v)) ∧
    (∀ (fuel : Nat) (p : Program) (env : Env) (σ σ' : Caches) (res : VRes Unit),
      Coh p env σ → ProgramWF p env →
      validateProgram fuel p σ = (σ', res) →
      (∀ k v, σ.fragmentCache.lookup k = some v →
        σ'.fragmentCache.lookup k = some v) ∧
      (∀ i v, σ.fieldsCache.lookup i = some v →
        σ'.fieldsCache.lookup i = some v)) := by
  constructor
  · intro n p env σ sels σ' r hcoh hpwf hwfs h
    have hcoh' := ((cacheSim n).1 p env σ sels σ' r hcoh hpwf hwfs h).1
    have hext := (cacheExtends n).1 p σ sels σ' r h
    exact ⟨fun k v hlk => lookupPreserved_frag hcoh hcoh' hext hlk,
      fun i v hlk => lookupPreserved_fld hcoh hcoh' hext hlk⟩
  · intro fuel p env σ σ' res hcoh hpwf h
    obtain ⟨hcoh', hext⟩ := validateProgram_sim fuel p env σ σ' res hcoh hpwf h
    exact ⟨fun k v hlk => lookupPreserved_frag hcoh hcoh' hext hlk,
      fun i v hlk => lookupPreserved_fld hcoh hcoh' hext hlk⟩

/-- Witness for C9: on a coherent state whose fragment cache already holds
the `id`-fragment's list, a full driver run leaves that entry's value intact. -/
theorem C9_cache_immutability_witness :
    (validateProgram 9 idProgram
        ⟨[(0, [.scalarFeild ⟨some 5, 0, 100⟩])], []⟩).1.fragmentCache.lookup 0
      = some [.scalarFeild ⟨some 5, 0, 100⟩] := by
  have hcoh : Coh idProgram (fun _ => none)
      ⟨[(0, [.scalarFeild ⟨some 5, 0, 100⟩])], []⟩ := by
    constructor
    · intro name fl hlk
      by_cases hbe : (name == 0) = true
      · obtain rfl : name = 0 := by simpa using hbe
        have hfl : fl = [.scalarFeild ⟨some 5, 0, 100⟩] := by
          simp [List.lookup] at hlk
          exact hlk.symm
        subst hfl
        refine ⟨idFragment, rfl, ⟨5, rfl⟩, ?_⟩
        intro f hf
        simp at hf
        subst hf
        trivial
      · simp [List.lookup, hbe] at hlk
    · intro i fl hlk
      simp [List.lookup] at hlk
  have hpwf : ProgramWF idProgram (fun _ => none) := by
    refine ⟨?_, ?_, ?_⟩
    · intro name fd hlk
      by_cases hbe : (name == 0) = true
      · obtain rfl : name = 0 := by simpa using hbe
        have hfd : fd = idFragment := by
          simp [idProgram, List.lookup] at hlk
          exact hlk.symm
        subst hfd
        refine ⟨rfl, ?_⟩
        intro s hs
        simp [idFragment] at hs
        subst hs
        exact SelWF.scalarField
      · simp [idProgram, List.lookup, hbe] at hlk
    · intro pr hpr
      simp [idProgram] at hpr
      subst hpr
      rfl
    · intro op hop
      simp [idProgram] at hop
  rcases hrun : validateProgram 9 idProgram
      ⟨[(0, [.scalarFeild ⟨some 5, 0, 100⟩])], []⟩ with ⟨σ', res⟩
  have hpres := (C9_cache_immutability.2 9 idProgram (fun _ => none) _ σ' res
    hcoh hpwf hrun).1 0 [.scalarFeild ⟨some 5, 0, 100⟩] rfl
  exact hpres

/-! ### Claim C7 -/

/-- A successful fragment resolution always leaves the fragment's name bound
to the returned list in the fragment cache. -/
theorem collect_ok_lookup :
    ∀ (n : Nat) (p : Program) (σ σ1 : Caches) (frag : FragmentDefinition)
      (fl : Fields),
      validateAndCollectFragment n p σ frag = (σ1, .ok fl) →
      σ1.fragmentCache.lookup frag.name = some fl := by
  intro n p σ σ1 frag fl h
  cases n with
  | zero => simp [validateAndCollectFragment] at h
  | succ n =>
      rcases hlk : σ.fragmentCache.lookup frag.name with _ | cached
      · rcases hflat : validateSelections n p σ frag.selections with ⟨σ2, rl⟩
        cases rl with
        | stuck => simp [validateAndCollectFragment, hlk, hflat] at h
        | err es => simp [validateAndCollectFragment, hlk, hflat] at h
        | ok fl2 =>
            obtain ⟨rfl, rfl⟩ :
                { σ2 with fragmentCache := (frag.name, fl2) :: σ2.fragmentCache } = σ1
                  ∧ fl2 = fl := by
              have h2 := h
              simp [validateAndCollectFragment, hlk, hflat] at h2
              exact ⟨h2.1, h2.2⟩
            simp [List.lookup]
      · obtain ⟨rfl, rfl⟩ : σ = σ1 ∧ cached = fl := by
          have h2 := h
          simp [validateAndCollectFragment, hlk] at h2
          exact ⟨h2.1, h2.2⟩
        exact hlk

/-- Claim C7: fragment resolution is memoized by fragment name — a cache hit
returns the shared cached list with no state change; a miss flattens the
fragment's own selections, stores the result and returns it (the name then
looks up to that list); after any successful resolution, resolving the same
fragment again returns the same cached list with no diagnostics and no state
change; and from any coherent cache state a resolution returns exactly the
result that computing without caching produces. -/
theorem C7_fragment_memoization :
    (∀ (n : Nat) (p : Program) (σ : Caches) (frag : FragmentDefinition)
      (fl : Fields),
      σ.fragmentCache.lookup frag.name = some fl →
      validateAndCollectFragment (n + 1) p σ frag = (σ, .ok fl)) ∧
    (∀ (n : Nat) (p : Program) (σ σ' : Caches) (frag : FragmentDefinition)
      (fl : Fields),
      σ.fragmentCache.lookup frag.name = none →
      validateSelections n p σ frag.selections = (σ', .ok fl) →
      validateAndCollectFragment (n + 1) p σ frag
          = ({ σ' with fragmentCache := (frag.name, fl) :: σ'.fragmentCache },
              .ok fl)
        ∧ ((frag.name, fl) :: σ'.fragmentCache).lookup frag.name = some fl) ∧
    (∀ (n m : Nat) (p : Program) (σ σ1 : Caches) (frag : FragmentDefinition)
      (fl : Fields),
      validateAndCollectFragment n p σ frag = (σ1, .ok fl) →
      validateAndCollectFragment (m + 1) p σ1 frag = (σ1, .ok fl)) ∧
    (∀ (n : Nat) (p : Program) (env : Env) (σ σ' : Caches)
      (frag : FragmentDefinition) (r : VRes Fields),
      Coh p env σ → ProgramWF p env →
      p.fragments.lookup frag.name = some frag →
      validateAndCollectFragment n p σ frag = (σ', r) → r ≠ .stuck →
      ∃ m, collectFragmentNC m p frag = r) := by
  refine ⟨?_, ?_, ?_, ?_⟩
  · intro n p σ frag fl h
    simp [validateAndCollectFragment, h]
  · intro n p σ σ' frag fl h hflat
    exact ⟨by simp [validateAndCollectFragment, h, hflat], by simp [List.lookup]⟩
  · intro n m p σ σ1 frag fl h
    have hlk := collect_ok_lookup n p σ σ1 frag fl h
    simp [validateAndCollectFragment, hlk]
  · intro n p env σ σ' frag r hcoh hpwf hfr h hne
    exact ((cacheSim n).2.2.2.1 p env σ frag σ' r hcoh hpwf hfr h).2.2 hne

/-- Witness for C7: the `id` fragment — hit from a warm cache, miss from the
empty cache (stored and returned), and agreement with the cache-free
flattening. -/
theorem C7_fragment_memoization_witness :
    validateAndCollectFragment 9 idProgram
        ⟨[(0, [.scalarFeild ⟨some 5, 0, 100⟩])], []⟩ idFragment
      = (⟨[(0, [.scalarFeild ⟨some 5, 0, 100⟩])], []⟩,
          .ok [.scalarFeild ⟨some 5, 0, 100⟩])
    ∧ validateAndCollectFragment 6 idProgram σ0 idFragment
      = (⟨[(0, [.scalarFeild ⟨some 5, 0, 100⟩])], []⟩,
          .ok [.scalarFeild ⟨some 5, 0, 100⟩])
    ∧ (∃ m, collectFragmentNC m idProgram idFragment
        = .ok [.scalarFeild ⟨some 5, 0, 100⟩]) := by
  have hcoh0 : Coh idProgram (fun _ => none) σ0 := by
    constructor
    · intro name fl hlk
      simp [σ0, List.lookup] at hlk
    · intro i fl hlk
      simp [σ0, List.lookup] at hlk
  have hpwf : ProgramWF idProgram (fun _ => none) := by
    refine ⟨?_, ?_, ?_⟩
    · intro name fd hlk
      by_cases hbe : (name == 0) = true
      · obtain rfl : name = 0 := by simpa using hbe
        have hfd : fd = idFragment := by
          simp [idProgram, List.lookup] at hlk
          exact hlk.symm
        subst hfd
        refine ⟨rfl, ?_⟩
        intro s hs
        simp [idFragment] at hs
        subst hs
        exact SelWF.scalarField
      · simp [idProgram, List.lookup, hbe] at hlk
    · intro pr hpr
      simp [idProgram] at hpr
      subst hpr
      rfl
    · intro op hop
      simp [idProgram] at hop
  refine ⟨?_, ?_, ?_⟩
  · exact C7_fragment_memoization.1 8 idProgram
      ⟨[(0, [.scalarFeild ⟨some 5, 0, 100⟩])], []⟩ idFragment
      [.scalarFeild ⟨some 5, 0, 100⟩] rfl
  · exact (C7_fragment_memoization.2.1 5 idProgram σ0 σ0 idFragment
      [.scalarFeild ⟨some 5, 0, 100⟩] rfl rfl).1
  · exact C7_fragment_memoization.2.2.2 6 idProgram (fun _ => none) σ0
      ⟨[(0, [.scalarFeild ⟨some 5, 0, 100⟩])], []⟩ idFragment
      (.ok [.scalarFeild ⟨some 5, 0, 100⟩]) hcoh0 hpwf rfl rfl (by simp)

end SelectionConflict
